import Mathlib

/-!
Shallow embedding of the `Minesweeper` class of `src/minesweeper.py`.

Grids are Python lists of lists; indexing follows Python semantics
(negative indices alias from the end, out-of-range access fails).
`grid` stores `MINE = -1` for mine cells and the hint count otherwise;
`state_grid` stores the per-cell visibility.

Randomness (`random.choice` in `_place_mines`) is modelled by an arbitrary
choice function `choose : List (Int × Int) → Nat`, used modulo the length of
the remaining candidate list; `set.pop` in `_uncover_cascade` is modelled by
an arbitrary pick function over the worklist (the worklist is a list rather
than a deduplicating set; popping a duplicate of an already-uncovered cell is
the same skip/no-op as in the source).  The cascade loop is written with
explicit fuel; termination with the fuel bound used by `runCascade` is proved
below (claim C8).
-/

/-- Python field states: COVERED = 0, UNCOVERED = 1, FLAGGED = 2. -/
inductive CellState where
  | covered
  | uncovered
  | flagged
deriving DecidableEq, Repr

/-- The sentinel `MINE = -1` of the source. -/
def MINE : Int := -1

/-- Resolve a Python list index: nonnegative indices must be below the
length, negative indices alias from the end (`l[i]` is `l[i + len(l)]`). -/
def pyIdx (n : Nat) (i : Int) : Option Nat :=
  if 0 ≤ i then (if i < (n : Int) then some i.toNat else none)
  else (if 0 ≤ i + (n : Int) then some (i + (n : Int)).toNat else none)

/-- Python read `l[i]`; `none` models an `IndexError`. -/
def pyGet {α : Type} (l : List α) (i : Int) : Option α :=
  match pyIdx l.length i with
  | some k => l[k]?
  | none => none

/-- Python write `l[i] = a` (only called after a successful read of the same
index in the source, so the out-of-range case never fires there). -/
def pySet {α : Type} (l : List α) (i : Int) (a : α) : List α :=
  match pyIdx l.length i with
  | some k => l.set k a
  | none => l

/-- Python read `g[i][j]` on a list of lists. -/
def pyGet2 {α : Type} (g : List (List α)) (i j : Int) : Option α :=
  match pyGet g i with
  | some row => pyGet row j
  | none => none

/-- Python write `g[i][j] = a` on a list of lists. -/
def pySet2 {α : Type} (g : List (List α)) (i j : Int) (a : α) : List (List α) :=
  match pyIdx g.length i with
  | some k =>
    match g[k]? with
    | some row => g.set k (pySet row j a)
    | none => g
  | none => g

/-- The grid has `height.toNat` rows of `width.toNat` entries each
(the shape every grid built by `__init__` has). -/
def Shaped {α : Type} (h w : Int) (g : List (List α)) : Prop :=
  g.length = h.toNat ∧ ∀ row ∈ g, row.length = w.toNat

/-- The cell is an actual board coordinate: `0 ≤ i < height`, `0 ≤ j < width`. -/
def inRange (h w : Int) (c : Int × Int) : Prop :=
  0 ≤ c.1 ∧ c.1 < h ∧ 0 ≤ c.2 ∧ c.2 < w

instance (h w : Int) (c : Int × Int) : Decidable (inRange h w c) := by
  unfold inRange; infer_instance

/-- Python range `range(a, b)` (of the integers `a ≤ x < b`). -/
def pyRange (a b : Int) : List Int :=
  (List.range (b - a).toNat).map (fun (k : Nat) => a + (k : Int))

/-- Source `self.fields()`: `itertools.product(range(self.height), range(self.width))`. -/
def fieldsList (h w : Int) : List (Int × Int) :=
  (pyRange 0 h).product (pyRange 0 w)

/-- Source `self.neighbors(i, j)`: the product of `range(max(i-1, 0), min(i+2, height))`
and `range(max(j-1, 0), min(j+2, width))` — the in-board cells at Chebyshev
distance at most 1, _including_ `(i, j)` itself. -/
def neighbors (h w : Int) (i j : Int) : List (Int × Int) :=
  (pyRange (max (i - 1) 0) (min (i + 2) h)).product
    (pyRange (max (j - 1) 0) (min (j + 2) w))

/-- The `Minesweeper` object: dimensions, requested mine count, the hint/mine
grid `self.grid` and the visibility grid `self.state_grid`. -/
structure Minesweeper where
  height : Int
  width : Int
  mines : Int
  grid : List (List Int)
  state_grid : List (List CellState)
deriving DecidableEq, Repr

/-- Source `_place_mines`: `mines` times, `random.choice` a cell from the shrinking
candidate list, set it to `MINE` and remove it from the list.  `none` models
the `IndexError` that `random.choice` raises on an empty list. -/
def placeMines (choose : List (Int × Int) → Nat) :
    Nat → List (List Int) → List (Int × Int) → Option (List (List Int))
  | 0, g, _ => some g
  | n + 1, g, flds =>
    match flds with
    | [] => none
    | f :: fs =>
      let c := (f :: fs).get ⟨choose (f :: fs) % (f :: fs).length, Nat.mod_lt _ (Nat.succ_pos _)⟩
      placeMines choose n (pySet2 g c.1 c.2 MINE) ((f :: fs).erase c)

/-- Source expression `sum(self.grid[k][l] == MINE for (k, l) in self.neighbors(i, j))`. -/
def mineCountAt (h w : Int) (g : List (List Int)) (c : Int × Int) : Int :=
  (((neighbors h w c.1 c.2).filter (fun d => decide (pyGet2 g d.1 d.2 = some MINE))).length : Int)

/-- One iteration of the hint loop in `__init__`: if `grid[i][j] != MINE`,
overwrite it with the count of `MINE` neighbors. -/
def hintStep (h w : Int) (g : List (List Int)) (c : Int × Int) : List (List Int) :=
  match pyGet2 g c.1 c.2 with
  | some v => if v = MINE then g else pySet2 g c.1 c.2 (mineCountAt h w g c)
  | none => g

/-- The hint loop of `__init__` over `self.fields()`. -/
def computeHints (h w : Int) (g : List (List Int)) : List (List Int) :=
  (fieldsList h w).foldl (hintStep h w) g

/-- Source `__init__(height, width, mines)`: zero grid, `_place_mines`, hint pass,
all-`COVERED` state grid.  `none` models construction failing with an
uncaught `IndexError` from `_place_mines`. -/
def mkMinesweeper (choose : List (Int × Int) → Nat) (height width mines : Int) :
    Option Minesweeper :=
  let g0 : List (List Int) :=
    List.replicate height.toNat (List.replicate width.toNat 0)
  match placeMines choose mines.toNat g0 (fieldsList height width) with
  | none => none
  | some g1 =>
    some { height := height, width := width, mines := mines,
           grid := computeHints height width g1,
           state_grid :=
             List.replicate height.toNat (List.replicate width.toNat CellState.covered) }

/-- The two ways a mutator can fail: `raise Illegal`, or a Python
`IndexError` from an out-of-range subscript. -/
inductive PyErr where
  | illegal
  | indexError
deriving DecidableEq, Repr

/-- Number of `COVERED` entries of a state grid (the cascade's termination
measure). -/
def coveredCount (sg : List (List CellState)) : Nat :=
  (sg.map (fun row => row.countP (fun s => decide (s = CellState.covered)))).sum

/-- The worklist element `todo.pop()` removes, as selected by `pick`. -/
def popCell (pick : List (Int × Int) → Nat) (t : Int × Int) (ts : List (Int × Int)) :
    Int × Int :=
  (t :: ts).get ⟨pick (t :: ts) % (t :: ts).length, Nat.mod_lt _ (Nat.succ_pos _)⟩

/-- Source `_uncover_cascade`'s worklist loop, with explicit fuel; `pick` chooses
which worklist element `todo.pop()` removes.  A popped cell is skipped unless
it is `COVERED` and not a mine; otherwise it is uncovered, and its neighbors
join the worklist when its hint is 0. -/
def cascadeFuel (g : List (List Int)) (h w : Int)
    (pick : List (Int × Int) → Nat) :
    Nat → List (List CellState) → List (Int × Int) → Option (List (List CellState))
  | _, sg, [] => some sg
  | 0, _, _ :: _ => none
  | fuel + 1, sg, t :: ts =>
    match pyGet2 sg (popCell pick t ts).1 (popCell pick t ts).2 with
    | some CellState.covered =>
      if pyGet2 g (popCell pick t ts).1 (popCell pick t ts).2 = some MINE then
        cascadeFuel g h w pick fuel sg ((t :: ts).erase (popCell pick t ts))
      else if pyGet2 g (popCell pick t ts).1 (popCell pick t ts).2 = some 0 then
        cascadeFuel g h w pick fuel
          (pySet2 sg (popCell pick t ts).1 (popCell pick t ts).2 CellState.uncovered)
          (neighbors h w (popCell pick t ts).1 (popCell pick t ts).2 ++
            (t :: ts).erase (popCell pick t ts))
      else
        cascadeFuel g h w pick fuel
          (pySet2 sg (popCell pick t ts).1 (popCell pick t ts).2 CellState.uncovered)
          ((t :: ts).erase (popCell pick t ts))
    | _ => cascadeFuel g h w pick fuel sg ((t :: ts).erase (popCell pick t ts))

/-- Source `_uncover_cascade(i, j)`, run with provably sufficient fuel. -/
def runCascade (g : List (List Int)) (h w : Int) (pick : List (Int × Int) → Nat)
    (sg : List (List CellState)) (todo : List (Int × Int)) : List (List CellState) :=
  (cascadeFuel g h w pick (todo.length + 9 * coveredCount sg) sg todo).getD sg

/-- Source `uncover(i, j)`: raise `Illegal` unless `state_grid[i][j] == COVERED`;
set it to `UNCOVERED`; cascade when `grid[i][j] == 0`.  The returned board is
the state at return/raise time (the precondition check precedes any
mutation). -/
def uncover (pick : List (Int × Int) → Nat) (b : Minesweeper) (i j : Int) :
    Minesweeper × Option PyErr :=
  match pyGet2 b.state_grid i j with
  | none => (b, some PyErr.indexError)
  | some s =>
    if s ≠ CellState.covered then (b, some PyErr.illegal)
    else
      match pyGet2 b.grid i j with
      | none =>
        ({ b with state_grid := pySet2 b.state_grid i j CellState.uncovered },
          some PyErr.indexError)
      | some v =>
        if v = 0 then
          ({ b with state_grid :=
              (runCascade b.grid b.height b.width pick
                (pySet2 b.state_grid i j CellState.uncovered)
                (neighbors b.height b.width i j)) }, none)
        else
          ({ b with state_grid := pySet2 b.state_grid i j CellState.uncovered }, none)

/-- Source `flag(i, j)`: raise `Illegal` unless the cell is `COVERED`; set `FLAGGED`. -/
def flag (b : Minesweeper) (i j : Int) : Minesweeper × Option PyErr :=
  match pyGet2 b.state_grid i j with
  | none => (b, some PyErr.indexError)
  | some s =>
    if s ≠ CellState.covered then (b, some PyErr.illegal)
    else ({ b with state_grid := pySet2 b.state_grid i j CellState.flagged }, none)

/-- Source `unflag(i, j)`: raise `Illegal` unless the cell is `FLAGGED`; set `COVERED`. -/
def unflag (b : Minesweeper) (i j : Int) : Minesweeper × Option PyErr :=
  match pyGet2 b.state_grid i j with
  | none => (b, some PyErr.indexError)
  | some s =>
    if s ≠ CellState.flagged then (b, some PyErr.illegal)
    else ({ b with state_grid := pySet2 b.state_grid i j CellState.covered }, none)

/-- Source `game_lost()`: some field holds a mine and is `UNCOVERED`. -/
def game_lost (b : Minesweeper) : Bool :=
  (fieldsList b.height b.width).any (fun c =>
    decide (pyGet2 b.grid c.1 c.2 = some MINE ∧
      pyGet2 b.state_grid c.1 c.2 = some CellState.uncovered))

/-- Source `game_won()`: no field violates "mine → flagged" or "non-mine → uncovered". -/
def game_won (b : Minesweeper) : Bool :=
  (fieldsList b.height b.width).all (fun c =>
    decide ((pyGet2 b.grid c.1 c.2 = some MINE →
        pyGet2 b.state_grid c.1 c.2 = some CellState.flagged) ∧
      (pyGet2 b.grid c.1 c.2 ≠ some MINE →
        pyGet2 b.state_grid c.1 c.2 = some CellState.uncovered)))

/-- Source `game_over()`. -/
def game_over (b : Minesweeper) : Bool :=
  game_lost b || game_won b

/-- One player action: which mutator is called, at which coordinates
(`pick` resolves the cascade's set-pop order for `uncover`). -/
inductive Op where
  | uncoverOp (pick : List (Int × Int) → Nat) (i j : Int)
  | flagOp (i j : Int)
  | unflagOp (i j : Int)

/-- Apply an action to a board; the board the caller holds afterwards
(whether or not the call raised). -/
def applyOp (b : Minesweeper) (op : Op) : Minesweeper :=
  match op with
  | Op.uncoverOp pick i j => (uncover pick b i j).1
  | Op.flagOp i j => (flag b i j).1
  | Op.unflagOp i j => (unflag b i j).1

/-! ## Indexing lemmas -/

theorem pyIdx_lt {n : Nat} {i : Int} {k : Nat} (hk : pyIdx n i = some k) : k < n := by
  unfold pyIdx at hk
  split_ifs at hk <;> simp_all <;> omega

theorem pyIdx_of_nonneg {n : Nat} {i : Int} (h0 : 0 ≤ i) (hn : i < (n : Int)) :
    pyIdx n i = some i.toNat := by
  unfold pyIdx
  rw [if_pos h0, if_pos hn]

theorem pyIdx_eq_toNat {n : Nat} {i : Int} {k : Nat} (h0 : 0 ≤ i)
    (hk : pyIdx n i = some k) : k = i.toNat ∧ i < (n : Int) := by
  unfold pyIdx at hk
  split_ifs at hk <;> simp_all

theorem pyGet_of_idx {α : Type} {l : List α} {i : Int} {k : Nat}
    (hk : pyIdx l.length i = some k) : pyGet l i = l[k]? := by
  simp [pyGet, hk]

theorem pyGet_of_idx_none {α : Type} {l : List α} {i : Int}
    (hk : pyIdx l.length i = none) : pyGet l i = none := by
  simp [pyGet, hk]

theorem pySet_of_idx {α : Type} {l : List α} {i : Int} {k : Nat}
    (hk : pyIdx l.length i = some k) (a : α) : pySet l i a = l.set k a := by
  simp [pySet, hk]

theorem pySet_of_idx_none {α : Type} {l : List α} {i : Int}
    (hk : pyIdx l.length i = none) (a : α) : pySet l i a = l := by
  simp [pySet, hk]

theorem pySet_length {α : Type} (l : List α) (i : Int) (a : α) :
    (pySet l i a).length = l.length := by
  cases hk : pyIdx l.length i with
  | none => rw [pySet_of_idx_none hk]
  | some k => rw [pySet_of_idx hk]; simp

theorem pyGet_pySet_self {α : Type} {l : List α} {i : Int}
    (h : (pyGet l i).isSome) (a : α) : pyGet (pySet l i a) i = some a := by
  cases hk : pyIdx l.length i with
  | none => rw [pyGet_of_idx_none hk] at h; simp at h
  | some k =>
    have hlt : k < l.length := pyIdx_lt hk
    have hk2 : pyIdx (pySet l i a).length i = some k := by rw [pySet_length]; exact hk
    rw [pyGet_of_idx hk2, pySet_of_idx hk]
    simp [List.getElem?_set, hlt]

theorem pyGet_pySet_cases {α : Type} (l : List α) (i i' : Int) (a : α) :
    pyGet (pySet l i a) i' = pyGet l i' ∨
      (pyGet (pySet l i a) i' = some a ∧ pyGet l i' = pyGet l i) := by
  cases hk : pyIdx l.length i with
  | none => left; rw [pySet_of_idx_none hk]
  | some k =>
    cases hk' : pyIdx l.length i' with
    | none =>
      left
      have hk2 : pyIdx (pySet l i a).length i' = none := by rw [pySet_length]; exact hk'
      rw [pyGet_of_idx_none hk2, pyGet_of_idx_none hk']
    | some k' =>
      have hk2 : pyIdx (pySet l i a).length i' = some k' := by rw [pySet_length]; exact hk'
      rw [pyGet_of_idx hk2, pySet_of_idx hk, pyGet_of_idx hk']
      by_cases hkk : k = k'
      · subst hkk
        right
        have hlt : k < l.length := pyIdx_lt hk
        rw [pyGet_of_idx hk]
        simp [List.getElem?_set, hlt]
      · left
        simp [List.getElem?_set, hkk]

theorem pyGet_pySet_ne {α : Type} {i i' : Int} (h0 : 0 ≤ i) (h0' : 0 ≤ i')
    (hne : i ≠ i') (l : List α) (a : α) : pyGet (pySet l i a) i' = pyGet l i' := by
  cases hk : pyIdx l.length i with
  | none => rw [pySet_of_idx_none hk]
  | some k =>
    cases hk' : pyIdx l.length i' with
    | none =>
      have hk2 : pyIdx (pySet l i a).length i' = none := by rw [pySet_length]; exact hk'
      rw [pyGet_of_idx_none hk2, pyGet_of_idx_none hk']
    | some k' =>
      have hk2 : pyIdx (pySet l i a).length i' = some k' := by rw [pySet_length]; exact hk'
      obtain ⟨hkeq, _⟩ := pyIdx_eq_toNat h0 hk
      obtain ⟨hkeq', _⟩ := pyIdx_eq_toNat h0' hk'
      have hne2 : k ≠ k' := by rw [hkeq, hkeq']; intro hh; apply hne; omega
      rw [pyGet_of_idx hk2, pySet_of_idx hk, pyGet_of_idx hk']
      simp [List.getElem?_set, hne2]

theorem pySet2_of_idx {α : Type} {g : List (List α)} {i : Int} {k : Nat} {row : List α}
    (hk : pyIdx g.length i = some k) (hrow : g[k]? = some row) (j : Int) (a : α) :
    pySet2 g i j a = g.set k (pySet row j a) := by
  simp [pySet2, hk, hrow]

theorem pySet2_of_idx_none {α : Type} {g : List (List α)} {i : Int}
    (hk : pyIdx g.length i = none) (j : Int) (a : α) : pySet2 g i j a = g := by
  simp [pySet2, hk]

theorem row_of_pyIdx {α : Type} {g : List (List α)} {i : Int} {k : Nat}
    (hk : pyIdx g.length i = some k) : ∃ row, g[k]? = some row :=
  ⟨g.get ⟨k, pyIdx_lt hk⟩, List.getElem?_eq_getElem (pyIdx_lt hk)⟩

theorem pySet2_length {α : Type} (g : List (List α)) (i j : Int) (a : α) :
    (pySet2 g i j a).length = g.length := by
  cases hk : pyIdx g.length i with
  | none => rw [pySet2_of_idx_none hk]
  | some k =>
    obtain ⟨row, hrow⟩ := row_of_pyIdx hk
    rw [pySet2_of_idx hk hrow]
    simp

theorem pyGet2_of_row {α : Type} {g : List (List α)} {i : Int} {k : Nat} {row : List α}
    (hk : pyIdx g.length i = some k) (hrow : g[k]? = some row) (j : Int) :
    pyGet2 g i j = pyGet row j := by
  simp [pyGet2, pyGet_of_idx hk, hrow]

theorem pyGet2_of_idx_none {α : Type} {g : List (List α)} {i : Int}
    (hk : pyIdx g.length i = none) (j : Int) : pyGet2 g i j = none := by
  simp [pyGet2, pyGet_of_idx_none hk]

theorem pyGet2_pySet2_self {α : Type} {g : List (List α)} {i j : Int}
    (h : (pyGet2 g i j).isSome) (a : α) : pyGet2 (pySet2 g i j a) i j = some a := by
  cases hk : pyIdx g.length i with
  | none => rw [pyGet2_of_idx_none hk] at h; simp at h
  | some k =>
    obtain ⟨row, hrow⟩ := row_of_pyIdx hk
    rw [pyGet2_of_row hk hrow] at h
    rw [pySet2_of_idx hk hrow]
    have hlt : k < g.length := pyIdx_lt hk
    have hk2 : pyIdx (g.set k (pySet row j a)).length i = some k := by
      rw [List.length_set]; exact hk
    have hrow2 : (g.set k (pySet row j a))[k]? = some (pySet row j a) := by
      simp [List.getElem?_set, hlt]
    rw [pyGet2_of_row hk2 hrow2]
    exact pyGet_pySet_self h a

theorem pyGet2_pySet2_cases {α : Type} (g : List (List α)) (i j i' j' : Int) (a : α) :
    pyGet2 (pySet2 g i j a) i' j' = pyGet2 g i' j' ∨
      (pyGet2 (pySet2 g i j a) i' j' = some a ∧ pyGet2 g i' j' = pyGet2 g i j) := by
  cases hk : pyIdx g.length i with
  | none => left; rw [pySet2_of_idx_none hk]
  | some k =>
    obtain ⟨row, hrow⟩ := row_of_pyIdx hk
    rw [pySet2_of_idx hk hrow]
    cases hk' : pyIdx g.length i' with
    | none =>
      left
      have hk2 : pyIdx (g.set k (pySet row j a)).length i' = none := by
        rw [List.length_set]; exact hk'
      rw [pyGet2_of_idx_none hk2, pyGet2_of_idx_none hk']
    | some k' =>
      have hk2 : pyIdx (g.set k (pySet row j a)).length i' = some k' := by
        rw [List.length_set]; exact hk'
      by_cases hkk : k = k'
      · subst hkk
        have hlt : k < g.length := pyIdx_lt hk
        have hrow2 : (g.set k (pySet row j a))[k]? = some (pySet row j a) := by
          simp [List.getElem?_set, hlt]
        rw [pyGet2_of_row hk2 hrow2, pyGet2_of_row hk' hrow, pyGet2_of_row hk hrow]
        exact pyGet_pySet_cases row j j' a
      · left
        have hrow2 : (g.set k (pySet row j a))[k']? = g[k']? := by
          simp [List.getElem?_set, hkk]
        cases hrow' : g[k']? with
        | none =>
          have h1 : pyGet2 (g.set k (pySet row j a)) i' j' = none := by
            simp [pyGet2, pyGet_of_idx hk2, hrow2, hrow']
          have h2 : pyGet2 g i' j' = none := by
            simp [pyGet2, pyGet_of_idx hk', hrow']
          rw [h1, h2]
        | some row' =>
          rw [pyGet2_of_row hk2 (by rw [hrow2]; exact hrow'), pyGet2_of_row hk' hrow']

theorem pyGet2_pySet2_ne {α : Type} {i j i' j' : Int} (h0 : 0 ≤ i) (hj0 : 0 ≤ j)
    (h0' : 0 ≤ i') (hj0' : 0 ≤ j') (hne : (i, j) ≠ (i', j'))
    (g : List (List α)) (a : α) : pyGet2 (pySet2 g i j a) i' j' = pyGet2 g i' j' := by
  cases hk : pyIdx g.length i with
  | none => rw [pySet2_of_idx_none hk]
  | some k =>
    obtain ⟨row, hrow⟩ := row_of_pyIdx hk
    rw [pySet2_of_idx hk hrow]
    cases hk' : pyIdx g.length i' with
    | none =>
      have hk2 : pyIdx (g.set k (pySet row j a)).length i' = none := by
        rw [List.length_set]; exact hk'
      rw [pyGet2_of_idx_none hk2, pyGet2_of_idx_none hk']
    | some k' =>
      have hk2 : pyIdx (g.set k (pySet row j a)).length i' = some k' := by
        rw [List.length_set]; exact hk'
      by_cases hii : i = i'
      · have hjj : j ≠ j' := by
          intro hh
          exact hne (by rw [hii, hh])
        have hkk : k = k' := by
          rw [hii] at hk
          rw [hk] at hk'
          injection hk'
        subst hkk
        have hlt : k < g.length := pyIdx_lt hk
        have hrow2 : (g.set k (pySet row j a))[k]? = some (pySet row j a) := by
          simp [List.getElem?_set, hlt]
        rw [pyGet2_of_row hk2 hrow2, pyGet2_of_row hk' hrow]
        exact pyGet_pySet_ne hj0 hj0' hjj row a
      · obtain ⟨hkeq, _⟩ := pyIdx_eq_toNat h0 hk
        obtain ⟨hkeq', _⟩ := pyIdx_eq_toNat h0' hk'
        have hkk : k ≠ k' := by rw [hkeq, hkeq']; intro hh; apply hii; omega
        have hrow2 : (g.set k (pySet row j a))[k']? = g[k']? := by
          simp [List.getElem?_set, hkk]
        cases hrow' : g[k']? with
        | none =>
          have h1 : pyGet2 (g.set k (pySet row j a)) i' j' = none := by
            simp [pyGet2, pyGet_of_idx hk2, hrow2, hrow']
          have h2 : pyGet2 g i' j' = none := by
            simp [pyGet2, pyGet_of_idx hk', hrow']
          rw [h1, h2]
        | some row' =>
          rw [pyGet2_of_row hk2 (by rw [hrow2]; exact hrow'), pyGet2_of_row hk' hrow']

/-! ## Ranges, fields, neighbors, shape -/

theorem mem_pyRange {a b x : Int} : x ∈ pyRange a b ↔ a ≤ x ∧ x < b := by
  unfold pyRange
  simp only [List.mem_map, List.mem_range]
  constructor
  · rintro ⟨k, hk, rfl⟩
    omega
  · rintro ⟨h1, h2⟩
    exact ⟨(x - a).toNat, by omega, by omega⟩

theorem pyRange_nodup (a b : Int) : (pyRange a b).Nodup := by
  unfold pyRange
  exact List.Nodup.map (fun k1 k2 hh => by omega) (List.nodup_range _)

theorem pyRange_length (a b : Int) : (pyRange a b).length = (b - a).toNat := by
  simp [pyRange]

theorem mem_fieldsList {h w : Int} {c : Int × Int} :
    c ∈ fieldsList h w ↔ inRange h w c := by
  obtain ⟨x, y⟩ := c
  show (x, y) ∈ (pyRange 0 h) ×ˢ (pyRange 0 w) ↔ _
  rw [List.mem_product, mem_pyRange, mem_pyRange]
  unfold inRange
  simp only []
  constructor
  · rintro ⟨⟨a1, a2⟩, b1, b2⟩
    exact ⟨a1, a2, b1, b2⟩
  · rintro ⟨a1, a2, b1, b2⟩
    exact ⟨⟨a1, a2⟩, b1, b2⟩

theorem fieldsList_nodup (h w : Int) : (fieldsList h w).Nodup :=
  List.Nodup.product (pyRange_nodup 0 h) (pyRange_nodup 0 w)

theorem fieldsList_length (h w : Int) :
    (fieldsList h w).length = h.toNat * w.toNat := by
  show ((pyRange 0 h) ×ˢ (pyRange 0 w)).length = _
  rw [List.length_product, pyRange_length, pyRange_length]
  simp

theorem mem_neighbors {h w i j : Int} {d : Int × Int} :
    d ∈ neighbors h w i j ↔
      (max (i - 1) 0 ≤ d.1 ∧ d.1 < min (i + 2) h ∧
        max (j - 1) 0 ≤ d.2 ∧ d.2 < min (j + 2) w) := by
  obtain ⟨x, y⟩ := d
  show (x, y) ∈ (pyRange (max (i-1) 0) (min (i+2) h)) ×ˢ (pyRange (max (j-1) 0) (min (j+2) w)) ↔ _
  rw [List.mem_product, mem_pyRange, mem_pyRange]
  simp only []
  constructor
  · rintro ⟨⟨a1, a2⟩, b1, b2⟩
    exact ⟨a1, a2, b1, b2⟩
  · rintro ⟨a1, a2, b1, b2⟩
    exact ⟨⟨a1, a2⟩, b1, b2⟩

theorem neighbors_inRange {h w i j : Int} {d : Int × Int}
    (hd : d ∈ neighbors h w i j) : inRange h w d := by
  rw [mem_neighbors] at hd
  unfold inRange
  omega

theorem self_mem_neighbors {h w i j : Int} (hin : inRange h w (i, j)) :
    (i, j) ∈ neighbors h w i j := by
  rw [mem_neighbors]
  unfold inRange at hin
  simp only [] at hin ⊢
  omega

theorem neighbors_nodup (h w i j : Int) : (neighbors h w i j).Nodup :=
  List.Nodup.product (pyRange_nodup _ _) (pyRange_nodup _ _)

theorem neighbors_length_le (h w i j : Int) : (neighbors h w i j).length ≤ 9 := by
  show ((pyRange (max (i-1) 0) (min (i+2) h)) ×ˢ (pyRange (max (j-1) 0) (min (j+2) w))).length ≤ 9
  rw [List.length_product, pyRange_length, pyRange_length]
  have h1 : (min (i + 2) h - max (i - 1) 0).toNat ≤ 3 := by omega
  have h2 : (min (j + 2) w - max (j - 1) 0).toNat ≤ 3 := by omega
  calc (min (i + 2) h - max (i - 1) 0).toNat * (min (j + 2) w - max (j - 1) 0).toNat
      ≤ 3 * 3 := Nat.mul_le_mul h1 h2
    _ ≤ 9 := by omega

theorem shaped_replicate {α : Type} (h w : Int) (x : α) :
    Shaped h w (List.replicate h.toNat (List.replicate w.toNat x)) := by
  constructor
  · simp
  · intro row hrow
    rw [List.eq_of_mem_replicate hrow]
    simp

theorem pyGet2_replicate {α : Type} {h w : Int} {c : Int × Int}
    (hc : inRange h w c) (x : α) :
    pyGet2 (List.replicate h.toNat (List.replicate w.toNat x)) c.1 c.2 = some x := by
  obtain ⟨h1, h2, h3, h4⟩ := hc
  have hk : pyIdx (List.replicate h.toNat (List.replicate w.toNat x)).length c.1
      = some c.1.toNat := by
    rw [List.length_replicate]
    exact pyIdx_of_nonneg h1 (by omega)
  have hrow : (List.replicate h.toNat (List.replicate w.toNat x))[c.1.toNat]?
      = some (List.replicate w.toNat x) := by
    rw [List.getElem?_replicate, if_pos (by omega)]
  rw [pyGet2_of_row hk hrow]
  have hk2 : pyIdx (List.replicate w.toNat x).length c.2 = some c.2.toNat := by
    rw [List.length_replicate]
    exact pyIdx_of_nonneg h3 (by omega)
  rw [pyGet_of_idx hk2, List.getElem?_replicate, if_pos (by omega)]

theorem shaped_pyGet2_isSome {α : Type} {h w : Int} {g : List (List α)}
    (hs : Shaped h w g) {c : Int × Int} (hc : inRange h w c) :
    ∃ v, pyGet2 g c.1 c.2 = some v := by
  obtain ⟨h1, h2, h3, h4⟩ := hc
  have hk : pyIdx g.length c.1 = some c.1.toNat := by
    rw [hs.1]
    exact pyIdx_of_nonneg h1 (by omega)
  obtain ⟨row, hrow⟩ := row_of_pyIdx hk
  have hmem : row ∈ g := by
    obtain ⟨hlt, heq⟩ := List.getElem?_eq_some_iff.mp hrow
    rw [← heq]
    exact List.getElem_mem hlt
  have hlen : row.length = w.toNat := hs.2 row hmem
  have hk2 : pyIdx row.length c.2 = some c.2.toNat := by
    rw [hlen]
    exact pyIdx_of_nonneg h3 (by omega)
  rw [pyGet2_of_row hk hrow, pyGet_of_idx hk2]
  obtain ⟨v, hv⟩ : ∃ v, row[c.2.toNat]? = some v := by
    have hlt2 : c.2.toNat < row.length := by rw [hlen]; omega
    exact ⟨row.get ⟨c.2.toNat, hlt2⟩, List.getElem?_eq_getElem hlt2⟩
  exact ⟨v, hv⟩

theorem shaped_pySet2 {α : Type} {h w : Int} {g : List (List α)}
    (hs : Shaped h w g) (i j : Int) (a : α) : Shaped h w (pySet2 g i j a) := by
  constructor
  · rw [pySet2_length]; exact hs.1
  · intro row' hrow'
    cases hk : pyIdx g.length i with
    | none =>
      rw [pySet2_of_idx_none hk] at hrow'
      exact hs.2 row' hrow'
    | some k =>
      obtain ⟨row, hrow⟩ := row_of_pyIdx hk
      rw [pySet2_of_idx hk hrow] at hrow'
      rcases List.mem_or_eq_of_mem_set hrow' with hm | he
      · exact hs.2 row' hm
      · rw [he, pySet_length]
        apply hs.2 row
        obtain ⟨hlt, heq⟩ := List.getElem?_eq_some_iff.mp hrow
        rw [← heq]
        exact List.getElem_mem hlt

theorem shaped_ext {α : Type} {h w : Int} {A B : List (List α)}
    (hA : Shaped h w A) (hB : Shaped h w B)
    (hpt : ∀ c : Int × Int, inRange h w c → pyGet2 A c.1 c.2 = pyGet2 B c.1 c.2) :
    A = B := by
  apply List.ext_getElem?
  intro n
  by_cases hn : n < h.toNat
  · have hkA : pyIdx A.length (n : Int) = some n := by
      rw [hA.1]
      rw [pyIdx_of_nonneg (by omega) (by omega)]
      simp
    have hkB : pyIdx B.length (n : Int) = some n := by
      rw [hB.1]
      rw [pyIdx_of_nonneg (by omega) (by omega)]
      simp
    obtain ⟨rowA, hrowA⟩ := row_of_pyIdx hkA
    obtain ⟨rowB, hrowB⟩ := row_of_pyIdx hkB
    rw [hrowA, hrowB]
    have hmemA : rowA ∈ A := by
      obtain ⟨hlt, heq⟩ := List.getElem?_eq_some_iff.mp hrowA
      rw [← heq]; exact List.getElem_mem hlt
    have hmemB : rowB ∈ B := by
      obtain ⟨hlt, heq⟩ := List.getElem?_eq_some_iff.mp hrowB
      rw [← heq]; exact List.getElem_mem hlt
    have hlenA : rowA.length = w.toNat := hA.2 rowA hmemA
    have hlenB : rowB.length = w.toNat := hB.2 rowB hmemB
    congr 1
    apply List.ext_getElem?
    intro m
    by_cases hm : m < w.toNat
    · have hc : inRange h w ((n : Int), (m : Int)) := by
        unfold inRange
        constructor
        · simp
        constructor
        · simp only []; omega
        constructor
        · simp
        · simp only []; omega
      have := hpt ((n : Int), (m : Int)) hc
      rw [pyGet2_of_row hkA hrowA, pyGet2_of_row hkB hrowB] at this
      have hk2A : pyIdx rowA.length (m : Int) = some m := by
        rw [hlenA, pyIdx_of_nonneg (by omega) (by omega)]
        simp
      have hk2B : pyIdx rowB.length (m : Int) = some m := by
        rw [hlenB, pyIdx_of_nonneg (by omega) (by omega)]
        simp
      rw [pyGet_of_idx hk2A, pyGet_of_idx hk2B] at this
      exact this
    · rw [List.getElem?_eq_none (by omega), List.getElem?_eq_none (by omega)]
  · rw [List.getElem?_eq_none (by rw [hA.1]; omega),
      List.getElem?_eq_none (by rw [hB.1]; omega)]

/-! ## Counting and cascade termination -/

theorem sum_map_set_add {α : Type} (f : α → Nat) {l : List α} {k : Nat} {v : α}
    (hv : l[k]? = some v) (a : α) :
    ((l.set k a).map f).sum + f v = (l.map f).sum + f a := by
  induction l generalizing k with
  | nil => simp at hv
  | cons x xs ih =>
    cases k with
    | zero =>
      simp only [List.getElem?_cons_zero, Option.some.injEq] at hv
      subst hv
      simp only [List.set_cons_zero, List.map_cons, List.sum_cons]
      omega
    | succ k2 =>
      simp only [List.getElem?_cons_succ] at hv
      rw [List.set_cons_succ]
      simp only [List.map_cons, List.sum_cons]
      have := ih hv
      omega

theorem countP_set_add {α : Type} (p : α → Bool) {l : List α} {k : Nat} {v : α}
    (hv : l[k]? = some v) (a : α) :
    (l.set k a).countP p + (if p v then 1 else 0)
      = l.countP p + (if p a then 1 else 0) := by
  induction l generalizing k with
  | nil => simp at hv
  | cons x xs ih =>
    cases k with
    | zero =>
      simp only [List.getElem?_cons_zero, Option.some.injEq] at hv
      subst hv
      rw [List.set_cons_zero, List.countP_cons, List.countP_cons]
      omega
    | succ k2 =>
      simp only [List.getElem?_cons_succ] at hv
      rw [List.set_cons_succ, List.countP_cons, List.countP_cons]
      have := ih hv
      omega

theorem coveredCount_pySet2 {sg : List (List CellState)} {i j : Int}
    (hcov : pyGet2 sg i j = some CellState.covered) :
    coveredCount (pySet2 sg i j CellState.uncovered) + 1 = coveredCount sg := by
  cases hk : pyIdx sg.length i with
  | none => rw [pyGet2_of_idx_none hk] at hcov; cases hcov
  | some k =>
    obtain ⟨row, hrow⟩ := row_of_pyIdx hk
    rw [pyGet2_of_row hk hrow] at hcov
    cases hk2 : pyIdx row.length j with
    | none => rw [pyGet_of_idx_none hk2] at hcov; cases hcov
    | some k2 =>
      rw [pyGet_of_idx hk2] at hcov
      rw [pySet2_of_idx hk hrow, pySet_of_idx hk2]
      unfold coveredCount
      have h1 := countP_set_add (fun s => decide (s = CellState.covered)) hcov
        CellState.uncovered
      have h2 := sum_map_set_add (fun r => r.countP (fun s => decide (s = CellState.covered)))
        hrow (row.set k2 CellState.uncovered)
      simp at h1
      omega

theorem popCell_mem (pick : List (Int × Int) → Nat) (t : Int × Int)
    (ts : List (Int × Int)) : popCell pick t ts ∈ t :: ts := by
  unfold popCell
  exact List.get_mem _ _ _

theorem cascadeFuel_isSome (g : List (List Int)) (h w : Int)
    (pick : List (Int × Int) → Nat) :
    ∀ fuel sg todo, todo.length + 9 * coveredCount sg ≤ fuel →
      (cascadeFuel g h w pick fuel sg todo).isSome := by
  intro fuel
  induction fuel with
  | zero =>
    intro sg todo hle
    cases todo with
    | nil => simp [cascadeFuel]
    | cons t ts => simp at hle
  | succ fuel ih =>
    intro sg todo hle
    cases todo with
    | nil => simp [cascadeFuel]
    | cons t ts =>
      simp only [cascadeFuel]
      have hmem : popCell pick t ts ∈ t :: ts := popCell_mem pick t ts
      have herase : ((t :: ts).erase (popCell pick t ts)).length = ts.length := by
        rw [List.length_erase_of_mem hmem]
        simp
      simp only [List.length_cons] at hle
      cases hst : pyGet2 sg (popCell pick t ts).1 (popCell pick t ts).2 with
      | none =>
        apply ih
        rw [herase]
        omega
      | some s =>
        cases s with
        | covered =>
          by_cases hm : pyGet2 g (popCell pick t ts).1 (popCell pick t ts).2 = some MINE
          · rw [if_pos hm]
            apply ih
            rw [herase]
            omega
          · rw [if_neg hm]
            have hcov2 : coveredCount
                (pySet2 sg (popCell pick t ts).1 (popCell pick t ts).2 CellState.uncovered)
                + 1 = coveredCount sg := coveredCount_pySet2 hst
            by_cases hz : pyGet2 g (popCell pick t ts).1 (popCell pick t ts).2 = some 0
            · rw [if_pos hz]
              apply ih
              rw [List.length_append, herase]
              have h9 := neighbors_length_le h w (popCell pick t ts).1 (popCell pick t ts).2
              omega
            · rw [if_neg hz]
              apply ih
              rw [herase]
              omega
        | uncovered =>
          apply ih
          rw [herase]
          omega
        | flagged =>
          apply ih
          rw [herase]
          omega

/-! ## Cascade characterization -/

/-- The cell currently reads `COVERED`. -/
def coveredAt (sg : List (List CellState)) (c : Int × Int) : Prop :=
  pyGet2 sg c.1 c.2 = some CellState.covered

/-- The cell holds a mine (`grid` reads `MINE`). -/
def mineAt (g : List (List Int)) (c : Int × Int) : Prop :=
  pyGet2 g c.1 c.2 = some MINE

/-- The cell has hint `0` (`grid` reads `0`). -/
def zeroAt (g : List (List Int)) (c : Int × Int) : Prop :=
  pyGet2 g c.1 c.2 = some 0

instance (sg : List (List CellState)) (c : Int × Int) : Decidable (coveredAt sg c) := by
  unfold coveredAt; infer_instance

instance (g : List (List Int)) (c : Int × Int) : Decidable (mineAt g c) := by
  unfold mineAt; infer_instance

instance (g : List (List Int)) (c : Int × Int) : Decidable (zeroAt g c) := by
  unfold zeroAt; infer_instance

/-- The cells the worklist loop will uncover, from state `sg` with worklist
`todo`: covered non-mine worklist cells, closed under stepping from a
zero-hint such cell to its covered non-mine neighbors. -/
inductive CascReach (g : List (List Int)) (h w : Int) (sg : List (List CellState))
    (todo : List (Int × Int)) : Int × Int → Prop where
  | base (c : Int × Int) : c ∈ todo → coveredAt sg c → ¬ mineAt g c →
      CascReach g h w sg todo c
  | step (c d : Int × Int) : CascReach g h w sg todo c → zeroAt g c →
      d ∈ neighbors h w c.1 c.2 → coveredAt sg d → ¬ mineAt g d →
      CascReach g h w sg todo d

theorem cascReach_coveredAt {g : List (List Int)} {h w : Int} {sg} {todo}
    {d : Int × Int} (hd : CascReach g h w sg todo d) : coveredAt sg d := by
  cases hd with
  | base c hc hcov hm => exact hcov
  | step c d hr hz hnb hcov hm => exact hcov

theorem cascReach_nonneg {g : List (List Int)} {h w : Int} {sg} {todo}
    (hnn : ∀ e ∈ todo, 0 ≤ e.1 ∧ 0 ≤ e.2) {d : Int × Int}
    (hd : CascReach g h w sg todo d) : 0 ≤ d.1 ∧ 0 ≤ d.2 := by
  induction hd with
  | base c hc hcov hm => exact hnn c hc
  | step c d hr hz hnb hcov hm ih =>
    have := neighbors_inRange hnb
    unfold inRange at this
    exact ⟨this.1, this.2.2.1⟩

theorem cascReach_nil {g : List (List Int)} {h w : Int} {sg} {d : Int × Int} :
    ¬ CascReach g h w sg [] d := by
  intro hd
  induction hd with
  | base c hc hcov hm => simp at hc
  | step c d hr hz hnb hcov hm ih => exact ih

theorem coveredAt_pySet2_ne {sg : List (List CellState)} {c d : Int × Int}
    (hc : 0 ≤ c.1 ∧ 0 ≤ c.2) (hd : 0 ≤ d.1 ∧ 0 ≤ d.2) (hne : d ≠ c) (a : CellState) :
    coveredAt (pySet2 sg c.1 c.2 a) d ↔ coveredAt sg d := by
  obtain ⟨c1, c2⟩ := c
  obtain ⟨d1, d2⟩ := d
  unfold coveredAt
  rw [pyGet2_pySet2_ne hc.1 hc.2 hd.1 hd.2 (Ne.symm hne) sg a]

theorem pySet2_uncovered_self {sg : List (List CellState)} {c : Int × Int}
    (hcov : coveredAt sg c) :
    pyGet2 (pySet2 sg c.1 c.2 CellState.uncovered) c.1 c.2
      = some CellState.uncovered := by
  apply pyGet2_pySet2_self
  unfold coveredAt at hcov
  rw [hcov]
  rfl

theorem ne_of_coveredAt_after {sg : List (List CellState)} {c e : Int × Int}
    (hcov : coveredAt sg c)
    (he : coveredAt (pySet2 sg c.1 c.2 CellState.uncovered) e) : e ≠ c := by
  rintro rfl
  unfold coveredAt at he
  rw [pySet2_uncovered_self hcov] at he
  cases he

theorem cascReach_skip {g : List (List Int)} {h w : Int} {sg} {todo : List (Int × Int)}
    {c : Int × Int} (hskip : ¬ coveredAt sg c ∨ mineAt g c) (d : Int × Int) :
    CascReach g h w sg todo d ↔ CascReach g h w sg (todo.erase c) d := by
  constructor
  · intro hd
    induction hd with
    | base e he hcov hm =>
      have hne : e ≠ c := by
        rintro rfl
        rcases hskip with hs | hs
        · exact hs hcov
        · exact hm hs
      exact CascReach.base e ((List.mem_erase_of_ne hne).mpr he) hcov hm
    | step e f hre hz hnb hcov hm ih =>
      exact CascReach.step e f ih hz hnb hcov hm
  · intro hd
    induction hd with
    | base e he hcov hm =>
      exact CascReach.base e (List.mem_of_mem_erase he) hcov hm
    | step e f hre hz hnb hcov hm ih =>
      exact CascReach.step e f ih hz hnb hcov hm

theorem cascReach_uncover_nonzero {g : List (List Int)} {h w : Int} {sg}
    {todo : List (Int × Int)} {c : Int × Int}
    (hc : c ∈ todo) (hcov : coveredAt sg c) (hz : ¬ zeroAt g c)
    (hnn : ∀ e ∈ todo, 0 ≤ e.1 ∧ 0 ≤ e.2) {d : Int × Int} (hd : d ≠ c) :
    CascReach g h w sg todo d ↔
      CascReach g h w (pySet2 sg c.1 c.2 CellState.uncovered) (todo.erase c) d := by
  have hnnc : 0 ≤ c.1 ∧ 0 ≤ c.2 := hnn c hc
  constructor
  · intro hrd
    have forward : ∀ e, CascReach g h w sg todo e → e ≠ c →
        CascReach g h w (pySet2 sg c.1 c.2 CellState.uncovered) (todo.erase c) e := by
      intro e hre
      induction hre with
      | base f hf hcovf hmf =>
        intro hne
        refine CascReach.base f ((List.mem_erase_of_ne hne).mpr hf) ?_ hmf
        exact (coveredAt_pySet2_ne hnnc (hnn f hf) hne CellState.uncovered).mpr hcovf
      | step e f hre2 hzf hnb hcovf hmf ih =>
        intro hne
        have hec : e ≠ c := by
          rintro rfl
          exact hz hzf
        have hnnf : 0 ≤ f.1 ∧ 0 ≤ f.2 := by
          have := neighbors_inRange hnb
          unfold inRange at this
          exact ⟨this.1, this.2.2.1⟩
        refine CascReach.step e f (ih hec) hzf hnb ?_ hmf
        exact (coveredAt_pySet2_ne hnnc hnnf hne CellState.uncovered).mpr hcovf
    exact forward d hrd hd
  · intro hrd
    clear hd
    induction hrd with
    | base f hf hcovf hmf =>
      have hfc : f ≠ c := ne_of_coveredAt_after hcov hcovf
      have hf2 : f ∈ todo := List.mem_of_mem_erase hf
      refine CascReach.base f hf2 ?_ hmf
      exact (coveredAt_pySet2_ne hnnc (hnn f hf2) hfc CellState.uncovered).mp hcovf
    | step e f hre hzf hnb hcovf hmf ih =>
      have hfc : f ≠ c := ne_of_coveredAt_after hcov hcovf
      have hnnf : 0 ≤ f.1 ∧ 0 ≤ f.2 := by
        have := neighbors_inRange hnb
        unfold inRange at this
        exact ⟨this.1, this.2.2.1⟩
      refine CascReach.step e f ih hzf hnb ?_ hmf
      exact (coveredAt_pySet2_ne hnnc hnnf hfc CellState.uncovered).mp hcovf

theorem cascReach_uncover_zero {g : List (List Int)} {h w : Int} {sg}
    {todo : List (Int × Int)} {c : Int × Int}
    (hc : c ∈ todo) (hcov : coveredAt sg c) (hm : ¬ mineAt g c) (hz : zeroAt g c)
    (hnn : ∀ e ∈ todo, 0 ≤ e.1 ∧ 0 ≤ e.2) {d : Int × Int} (hd : d ≠ c) :
    CascReach g h w sg todo d ↔
      CascReach g h w (pySet2 sg c.1 c.2 CellState.uncovered)
        (neighbors h w c.1 c.2 ++ todo.erase c) d := by
  have hnnc : 0 ≤ c.1 ∧ 0 ≤ c.2 := hnn c hc
  constructor
  · intro hrd
    have forward : ∀ e, CascReach g h w sg todo e → e ≠ c →
        CascReach g h w (pySet2 sg c.1 c.2 CellState.uncovered)
          (neighbors h w c.1 c.2 ++ todo.erase c) e := by
      intro e hre
      induction hre with
      | base f hf hcovf hmf =>
        intro hne
        refine CascReach.base f ?_ ?_ hmf
        · exact List.mem_append.mpr (Or.inr ((List.mem_erase_of_ne hne).mpr hf))
        · exact (coveredAt_pySet2_ne hnnc (hnn f hf) hne CellState.uncovered).mpr hcovf
      | step e f hre2 hzf hnb hcovf hmf ih =>
        intro hne
        have hnnf : 0 ≤ f.1 ∧ 0 ≤ f.2 := by
          have := neighbors_inRange hnb
          unfold inRange at this
          exact ⟨this.1, this.2.2.1⟩
        have hcovf2 : coveredAt (pySet2 sg c.1 c.2 CellState.uncovered) f :=
          (coveredAt_pySet2_ne hnnc hnnf hne CellState.uncovered).mpr hcovf
        by_cases hec : e = c
        · subst hec
          refine CascReach.base f ?_ hcovf2 hmf
          exact List.mem_append.mpr (Or.inl hnb)
        · exact CascReach.step e f (ih hec) hzf hnb hcovf2 hmf
    exact forward d hrd hd
  · intro hrd
    clear hd
    induction hrd with
    | base f hf hcovf hmf =>
      have hfc : f ≠ c := ne_of_coveredAt_after hcov hcovf
      rcases List.mem_append.mp hf with hfn | hfe
      · have hnnf : 0 ≤ f.1 ∧ 0 ≤ f.2 := by
          have := neighbors_inRange hfn
          unfold inRange at this
          exact ⟨this.1, this.2.2.1⟩
        refine CascReach.step c f (CascReach.base c hc hcov hm) hz hfn ?_ hmf
        exact (coveredAt_pySet2_ne hnnc hnnf hfc CellState.uncovered).mp hcovf
      · have hf2 : f ∈ todo := List.mem_of_mem_erase hfe
        refine CascReach.base f hf2 ?_ hmf
        exact (coveredAt_pySet2_ne hnnc (hnn f hf2) hfc CellState.uncovered).mp hcovf
    | step e f hre hzf hnb hcovf hmf ih =>
      have hfc : f ≠ c := ne_of_coveredAt_after hcov hcovf
      have hnnf : 0 ≤ f.1 ∧ 0 ≤ f.2 := by
        have := neighbors_inRange hnb
        unfold inRange at this
        exact ⟨this.1, this.2.2.1⟩
      refine CascReach.step e f ih hzf hnb ?_ hmf
      exact (coveredAt_pySet2_ne hnnc hnnf hfc CellState.uncovered).mp hcovf

theorem pair_ne_parts {c d : Int × Int} (hne : d ≠ c) : (c.1, c.2) ≠ (d.1, d.2) := by
  obtain ⟨c1, c2⟩ := c
  obtain ⟨d1, d2⟩ := d
  intro hh
  apply hne
  exact hh.symm

theorem pyGet2_pySet2_ne_cell {α : Type} {c d : Int × Int}
    (hc : 0 ≤ c.1 ∧ 0 ≤ c.2) (hd1 : 0 ≤ d.1) (hd2 : 0 ≤ d.2) (hne : d ≠ c)
    (g : List (List α)) (a : α) :
    pyGet2 (pySet2 g c.1 c.2 a) d.1 d.2 = pyGet2 g d.1 d.2 :=
  pyGet2_pySet2_ne hc.1 hc.2 hd1 hd2 (pair_ne_parts hne) g a

theorem cascadeFuel_spec (g : List (List Int)) (h w : Int)
    (pick : List (Int × Int) → Nat) :
    ∀ fuel sg todo r, cascadeFuel g h w pick fuel sg todo = some r →
      (∀ e ∈ todo, 0 ≤ e.1 ∧ 0 ≤ e.2) →
      ∀ d : Int × Int, 0 ≤ d.1 → 0 ≤ d.2 →
        (CascReach g h w sg todo d → pyGet2 r d.1 d.2 = some CellState.uncovered) ∧
        (¬ CascReach g h w sg todo d → pyGet2 r d.1 d.2 = pyGet2 sg d.1 d.2) := by
  intro fuel
  induction fuel with
  | zero =>
    intro sg todo r hr hnn d hd1 hd2
    cases todo with
    | nil =>
      simp only [cascadeFuel, Option.some.injEq] at hr
      subst hr
      exact ⟨fun hre => absurd hre cascReach_nil, fun _ => rfl⟩
    | cons t ts => simp [cascadeFuel] at hr
  | succ fuel ih =>
    intro sg todo r hr hnn d hd1 hd2
    cases todo with
    | nil =>
      simp only [cascadeFuel, Option.some.injEq] at hr
      subst hr
      exact ⟨fun hre => absurd hre cascReach_nil, fun _ => rfl⟩
    | cons t ts =>
      simp only [cascadeFuel] at hr
      set c := popCell pick t ts with hc
      have hmem : c ∈ t :: ts := by
        rw [hc]
        exact popCell_mem pick t ts
      have hnnc : 0 ≤ c.1 ∧ 0 ≤ c.2 := hnn c hmem
      have hnne : ∀ e ∈ (t :: ts).erase c, 0 ≤ e.1 ∧ 0 ≤ e.2 :=
        fun e he => hnn e (List.mem_of_mem_erase he)
      split at hr
      · rename_i heq
        have hcovc : coveredAt sg c := heq
        by_cases hmine : pyGet2 g c.1 c.2 = some MINE
        · rw [if_pos hmine] at hr
          have hspec := ih sg ((t :: ts).erase c) r hr hnne d hd1 hd2
          have htrans := @cascReach_skip g h w sg (t :: ts) c (Or.inr hmine) d
          exact ⟨fun hre => hspec.1 (htrans.mp hre),
            fun hnre => hspec.2 (fun hre2 => hnre (htrans.mpr hre2))⟩
        · rw [if_neg hmine] at hr
          have hmc : ¬ mineAt g c := hmine
          have hreach_c : CascReach g h w sg (t :: ts) c :=
            CascReach.base c hmem hcovc hmc
          by_cases hz : pyGet2 g c.1 c.2 = some 0
          · rw [if_pos hz] at hr
            have hzc : zeroAt g c := hz
            have hsub : ∀ e ∈ neighbors h w c.1 c.2 ++ (t :: ts).erase c,
                0 ≤ e.1 ∧ 0 ≤ e.2 := by
              intro e he
              rcases List.mem_append.mp he with h1 | h2
              · have := neighbors_inRange h1
                unfold inRange at this
                exact ⟨this.1, this.2.2.1⟩
              · exact hnne e h2
            have hspec := ih _ _ r hr hsub d hd1 hd2
            by_cases hdc : d = c
            · subst hdc
              refine ⟨fun _ => ?_, fun hnre => absurd hreach_c hnre⟩
              by_cases hrc : CascReach g h w (pySet2 sg c.1 c.2 CellState.uncovered)
                  (neighbors h w c.1 c.2 ++ (t :: ts).erase c) c
              · exact hspec.1 hrc
              · rw [hspec.2 hrc]
                exact pySet2_uncovered_self hcovc
            · have htrans := @cascReach_uncover_zero g h w sg (t :: ts) c
                hmem hcovc hmc hzc hnn d hdc
              refine ⟨fun hre => hspec.1 (htrans.mp hre), fun hnre => ?_⟩
              rw [hspec.2 (fun hre2 => hnre (htrans.mpr hre2))]
              exact pyGet2_pySet2_ne_cell hnnc hd1 hd2 hdc sg CellState.uncovered
          · rw [if_neg hz] at hr
            have hzc : ¬ zeroAt g c := hz
            have hspec := ih _ _ r hr hnne d hd1 hd2
            by_cases hdc : d = c
            · subst hdc
              refine ⟨fun _ => ?_, fun hnre => absurd hreach_c hnre⟩
              by_cases hrc : CascReach g h w (pySet2 sg c.1 c.2 CellState.uncovered)
                  ((t :: ts).erase c) c
              · exact hspec.1 hrc
              · rw [hspec.2 hrc]
                exact pySet2_uncovered_self hcovc
            · have htrans := @cascReach_uncover_nonzero g h w sg (t :: ts) c
                hmem hcovc hzc hnn d hdc
              refine ⟨fun hre => hspec.1 (htrans.mp hre), fun hnre => ?_⟩
              rw [hspec.2 (fun hre2 => hnre (htrans.mpr hre2))]
              exact pyGet2_pySet2_ne_cell hnnc hd1 hd2 hdc sg CellState.uncovered
      · rename_i x hnc
        have hncov : ¬ coveredAt sg c := fun hcc => hnc hcc
        have hspec := ih sg ((t :: ts).erase c) r hr hnne d hd1 hd2
        have htrans := @cascReach_skip g h w sg (t :: ts) c (Or.inl hncov) d
        exact ⟨fun hre => hspec.1 (htrans.mp hre),
          fun hnre => hspec.2 (fun hre2 => hnre (htrans.mpr hre2))⟩

theorem cascadeFuel_shaped (g : List (List Int)) (h w : Int)
    (pick : List (Int × Int) → Nat) (h2 w2 : Int) :
    ∀ fuel sg todo r, cascadeFuel g h w pick fuel sg todo = some r →
      Shaped h2 w2 sg → Shaped h2 w2 r := by
  intro fuel
  induction fuel with
  | zero =>
    intro sg todo r hr hs
    cases todo with
    | nil =>
      simp only [cascadeFuel, Option.some.injEq] at hr
      subst hr
      exact hs
    | cons t ts => simp [cascadeFuel] at hr
  | succ fuel ih =>
    intro sg todo r hr hs
    cases todo with
    | nil =>
      simp only [cascadeFuel, Option.some.injEq] at hr
      subst hr
      exact hs
    | cons t ts =>
      simp only [cascadeFuel] at hr
      split at hr
      · split at hr
        · exact ih sg _ r hr hs
        · split at hr
          · exact ih _ _ r hr (shaped_pySet2 hs _ _ _)
          · exact ih _ _ r hr (shaped_pySet2 hs _ _ _)
      · exact ih sg _ r hr hs

theorem cascadeFuel_transition (g : List (List Int)) (h w : Int)
    (pick : List (Int × Int) → Nat) :
    ∀ fuel sg todo r, cascadeFuel g h w pick fuel sg todo = some r →
      ∀ i j : Int, pyGet2 r i j = pyGet2 sg i j ∨
        (pyGet2 sg i j = some CellState.covered ∧
          pyGet2 r i j = some CellState.uncovered) := by
  intro fuel
  induction fuel with
  | zero =>
    intro sg todo r hr i j
    cases todo with
    | nil =>
      simp only [cascadeFuel, Option.some.injEq] at hr
      subst hr
      exact Or.inl rfl
    | cons t ts => simp [cascadeFuel] at hr
  | succ fuel ih =>
    intro sg todo r hr i j
    cases todo with
    | nil =>
      simp only [cascadeFuel, Option.some.injEq] at hr
      subst hr
      exact Or.inl rfl
    | cons t ts =>
      simp only [cascadeFuel] at hr
      set c := popCell pick t ts with hc
      have compose : ∀ sg2, pyGet2 sg2 i j = pyGet2 sg i j ∨
          (pyGet2 sg i j = some CellState.covered ∧
            pyGet2 sg2 i j = some CellState.uncovered) →
          cascadeFuel g h w pick fuel sg2 (neighbors h w c.1 c.2 ++ (t :: ts).erase c)
              = some r ∨
            cascadeFuel g h w pick fuel sg2 ((t :: ts).erase c) = some r →
          pyGet2 r i j = pyGet2 sg i j ∨
            (pyGet2 sg i j = some CellState.covered ∧
              pyGet2 r i j = some CellState.uncovered) := by
        intro sg2 hstep hrec
        have hih : pyGet2 r i j = pyGet2 sg2 i j ∨
            (pyGet2 sg2 i j = some CellState.covered ∧
              pyGet2 r i j = some CellState.uncovered) := by
          rcases hrec with hrec | hrec
          · exact ih sg2 _ r hrec i j
          · exact ih sg2 _ r hrec i j
        rcases hstep with hstep | ⟨hstep1, hstep2⟩
        · rcases hih with hih | ⟨hih1, hih2⟩
          · exact Or.inl (hih.trans hstep)
          · exact Or.inr ⟨hstep ▸ hih1, hih2⟩
        · rcases hih with hih | ⟨hih1, hih2⟩
          · exact Or.inr ⟨hstep1, hih.trans hstep2⟩
          · rw [hstep2] at hih1
            cases hih1
      split at hr
      · rename_i heq
        split at hr
        · rcases ih sg _ r hr i j with hh | hh
          · exact Or.inl hh
          · exact Or.inr hh
        · have hcovc : coveredAt sg c := heq
          have hcases := pyGet2_pySet2_cases sg c.1 c.2 i j CellState.uncovered
          have hstep : pyGet2 (pySet2 sg c.1 c.2 CellState.uncovered) i j = pyGet2 sg i j ∨
              (pyGet2 sg i j = some CellState.covered ∧
                pyGet2 (pySet2 sg c.1 c.2 CellState.uncovered) i j
                  = some CellState.uncovered) := by
            rcases hcases with hh | ⟨hh1, hh2⟩
            · exact Or.inl hh
            · right
              unfold coveredAt at hcovc
              exact ⟨hh2.trans hcovc, hh1⟩
          split at hr
          · exact compose _ hstep (Or.inl hr)
          · exact compose _ hstep (Or.inr hr)
      · rcases ih sg _ r hr i j with hh | hh
        · exact Or.inl hh
        · exact Or.inr hh

theorem runCascade_eq (g : List (List Int)) (h w : Int)
    (pick : List (Int × Int) → Nat) (sg : List (List CellState))
    (todo : List (Int × Int)) :
    cascadeFuel g h w pick (todo.length + 9 * coveredCount sg) sg todo
      = some (runCascade g h w pick sg todo) := by
  have hs := cascadeFuel_isSome g h w pick (todo.length + 9 * coveredCount sg) sg todo
    (Nat.le_refl _)
  obtain ⟨r, hr⟩ := Option.isSome_iff_exists.mp hs
  unfold runCascade
  rw [hr]
  rfl

theorem runCascade_spec (g : List (List Int)) (h w : Int)
    (pick : List (Int × Int) → Nat) (sg : List (List CellState))
    (todo : List (Int × Int)) (hnn : ∀ e ∈ todo, 0 ≤ e.1 ∧ 0 ≤ e.2)
    (d : Int × Int) (hd1 : 0 ≤ d.1) (hd2 : 0 ≤ d.2) :
    (CascReach g h w sg todo d →
      pyGet2 (runCascade g h w pick sg todo) d.1 d.2 = some CellState.uncovered) ∧
    (¬ CascReach g h w sg todo d →
      pyGet2 (runCascade g h w pick sg todo) d.1 d.2 = pyGet2 sg d.1 d.2) :=
  cascadeFuel_spec g h w pick _ sg todo _ (runCascade_eq g h w pick sg todo) hnn d hd1 hd2

theorem runCascade_shaped (g : List (List Int)) (h w : Int)
    (pick : List (Int × Int) → Nat) (sg : List (List CellState))
    (todo : List (Int × Int)) (h2 w2 : Int) (hs : Shaped h2 w2 sg) :
    Shaped h2 w2 (runCascade g h w pick sg todo) :=
  cascadeFuel_shaped g h w pick h2 w2 _ sg todo _ (runCascade_eq g h w pick sg todo) hs

theorem runCascade_transition (g : List (List Int)) (h w : Int)
    (pick : List (Int × Int) → Nat) (sg : List (List CellState))
    (todo : List (Int × Int)) (i j : Int) :
    pyGet2 (runCascade g h w pick sg todo) i j = pyGet2 sg i j ∨
      (pyGet2 sg i j = some CellState.covered ∧
        pyGet2 (runCascade g h w pick sg todo) i j = some CellState.uncovered) :=
  cascadeFuel_transition g h w pick _ sg todo _ (runCascade_eq g h w pick sg todo) i j

/-! ## The region the amended cascade claim describes -/

/-- The maximal 8-connected region of `Covered` zero-hint cells containing
`(i, j)`: cells reachable from `(i, j)` stepping between neighbors, every
cell on the path (endpoints included) being `Covered` with hint `0`.
(A zero-hint cell is never a mine, since its grid entry is `0`, not `MINE`.) -/
inductive RegionSpec (g : List (List Int)) (h w : Int) (sg : List (List CellState))
    (i j : Int) : Int × Int → Prop where
  | base : coveredAt sg (i, j) → zeroAt g (i, j) → RegionSpec g h w sg i j (i, j)
  | step (c d : Int × Int) : RegionSpec g h w sg i j c → d ∈ neighbors h w c.1 c.2 →
      coveredAt sg d → zeroAt g d → RegionSpec g h w sg i j d

/-- The set of cells the (amended) cascade claim says `uncover(i, j)` makes
`Uncovered`: the origin `(i, j)`, the covered zero-hint region around it, and
every covered non-mine cell adjacent to that region (which is the region
itself together with its one-cell border of covered nonzero-hint non-mine
cells). -/
def UncSet (g : List (List Int)) (h w : Int) (sg : List (List CellState))
    (i j : Int) (d : Int × Int) : Prop :=
  d = (i, j) ∨ ∃ e, RegionSpec g h w sg i j e ∧ d ∈ neighbors h w e.1 e.2 ∧
    coveredAt sg d ∧ ¬ mineAt g d

theorem regionSpec_zero {g : List (List Int)} {h w : Int} {sg} {i j : Int}
    {e : Int × Int} (he : RegionSpec g h w sg i j e) : zeroAt g e := by
  cases he with
  | base hcov hz => exact hz
  | step c d hreg hnb hcov hz => exact hz

theorem regionSpec_covered {g : List (List Int)} {h w : Int} {sg} {i j : Int}
    {e : Int × Int} (he : RegionSpec g h w sg i j e) : coveredAt sg e := by
  cases he with
  | base hcov hz => exact hcov
  | step c d hreg hnb hcov hz => exact hcov

theorem regionSpec_inRange {g : List (List Int)} {h w : Int} {sg} {i j : Int}
    (hin : inRange h w (i, j)) {e : Int × Int}
    (he : RegionSpec g h w sg i j e) : inRange h w e := by
  induction he with
  | base hcov hz => exact hin
  | step c d hreg hnb hcov hz ih => exact neighbors_inRange hnb

theorem zeroAt_not_mine {g : List (List Int)} {c : Int × Int}
    (hz : zeroAt g c) : ¬ mineAt g c := by
  unfold zeroAt at hz
  unfold mineAt MINE
  rw [hz]
  intro hh
  cases hh

theorem nonneg_of_inRange {h w : Int} {c : Int × Int} (hc : inRange h w c) :
    0 ≤ c.1 ∧ 0 ≤ c.2 := by
  unfold inRange at hc
  exact ⟨hc.1, hc.2.2.1⟩

theorem cascReach_iff_uncSet {g : List (List Int)} {h w : Int} {sg}
    {i j : Int} (hin : inRange h w (i, j)) (hcov : coveredAt sg (i, j))
    (hz : zeroAt g (i, j)) (d : Int × Int) :
    (CascReach g h w (pySet2 sg i j CellState.uncovered) (neighbors h w i j) d
        ∨ d = (i, j)) ↔
      UncSet g h w sg i j d := by
  have hnnij : 0 ≤ i ∧ 0 ≤ j := nonneg_of_inRange hin
  have hnnnb : ∀ e ∈ neighbors h w i j, 0 ≤ e.1 ∧ 0 ≤ e.2 :=
    fun e he => nonneg_of_inRange (neighbors_inRange he)
  have hcov_up : ∀ e : Int × Int, 0 ≤ e.1 ∧ 0 ≤ e.2 → e ≠ (i, j) →
      (coveredAt (pySet2 sg i j CellState.uncovered) e ↔ coveredAt sg e) :=
    fun e hnne hne => coveredAt_pySet2_ne hnnij hnne hne CellState.uncovered
  have hne_after : ∀ e : Int × Int,
      coveredAt (pySet2 sg i j CellState.uncovered) e → e ≠ (i, j) :=
    fun e he => ne_of_coveredAt_after hcov he
  constructor
  · rintro (hre | rfl)
    · induction hre with
      | base f hf hcovf hmf =>
        have hfij : f ≠ (i, j) := hne_after f hcovf
        right
        exact ⟨(i, j), RegionSpec.base hcov hz, hf,
          (hcov_up f (hnnnb f hf) hfij).mp hcovf, hmf⟩
      | step e f hre2 hze hnb hcovf hmf ih =>
        have heij : e ≠ (i, j) := hne_after e (cascReach_coveredAt hre2)
        have hfij : f ≠ (i, j) := hne_after f hcovf
        have hnnf : 0 ≤ f.1 ∧ 0 ≤ f.2 := nonneg_of_inRange (neighbors_inRange hnb)
        rcases ih with hh | ⟨e2, hreg2, hnb2, hcove, hme⟩
        · exact absurd hh heij
        · have hrege : RegionSpec g h w sg i j e :=
            RegionSpec.step e2 e hreg2 hnb2 hcove hze
          right
          exact ⟨e, hrege, hnb, (hcov_up f hnnf hfij).mp hcovf, hmf⟩
    · exact Or.inl rfl
  · rintro (rfl | ⟨e, hreg, hnb, hcovd, hmd⟩)
    · exact Or.inr rfl
    · have region_to : ∀ f, RegionSpec g h w sg i j f → f = (i, j) ∨
          CascReach g h w (pySet2 sg i j CellState.uncovered) (neighbors h w i j) f := by
        intro f hf
        induction hf with
        | base hcov2 hz2 => exact Or.inl rfl
        | step e2 f2 hreg2 hnb2 hcov2 hz2 ih =>
          by_cases hfij : f2 = (i, j)
          · exact Or.inl hfij
          · right
            have hnnf2 : 0 ≤ f2.1 ∧ 0 ≤ f2.2 :=
              nonneg_of_inRange (neighbors_inRange hnb2)
            have hcovf2 : coveredAt (pySet2 sg i j CellState.uncovered) f2 :=
              (hcov_up f2 hnnf2 hfij).mpr hcov2
            have hmf2 : ¬ mineAt g f2 := zeroAt_not_mine hz2
            rcases ih with rfl | hreach
            · exact CascReach.base f2 hnb2 hcovf2 hmf2
            · exact CascReach.step e2 f2 hreach (regionSpec_zero hreg2) hnb2 hcovf2 hmf2
      by_cases hdij : d = (i, j)
      · exact Or.inr hdij
      · left
        have hnnd : 0 ≤ d.1 ∧ 0 ≤ d.2 := nonneg_of_inRange (neighbors_inRange hnb)
        have hcovd2 : coveredAt (pySet2 sg i j CellState.uncovered) d :=
          (hcov_up d hnnd hdij).mpr hcovd
        rcases region_to e hreg with rfl | hreach
        · exact CascReach.base d hnb hcovd2 hmd
        · exact CascReach.step e d hreach (regionSpec_zero hreg) hnb hcovd2 hmd

/-! ## Mine placement -/

theorem placeMines_none_iff (choose : List (Int × Int) → Nat) :
    ∀ n (g : List (List Int)) (flds : List (Int × Int)),
      placeMines choose n g flds = none ↔ flds.length < n := by
  intro n
  induction n with
  | zero =>
    intro g flds
    simp [placeMines]
  | succ n ih =>
    intro g flds
    cases flds with
    | nil => simp [placeMines]
    | cons f fs =>
      have hcmem : ((f :: fs).get ⟨choose (f :: fs) % (f :: fs).length,
          Nat.mod_lt _ (Nat.succ_pos _)⟩) ∈ f :: fs := List.get_mem _ _ _
      have hlen : ((f :: fs).erase ((f :: fs).get ⟨choose (f :: fs) % (f :: fs).length,
          Nat.mod_lt _ (Nat.succ_pos _)⟩)).length = fs.length := by
        rw [List.length_erase_of_mem hcmem]
        simp
      simp only [placeMines]
      rw [ih, hlen]
      simp only [List.length_cons]
      omega

theorem length_filter_update {α : Type} {l : List α} {c : α} {p q : α → Bool} :
    l.Nodup → c ∈ l → (∀ x ∈ l, x ≠ c → p x = q x) → p c = false → q c = true →
    (l.filter q).length = (l.filter p).length + 1 := by
  induction l with
  | nil =>
    intro _ hc _ _ _
    cases hc
  | cons x xs ih =>
    intro hnd hc hpq hpc hqc
    have hndx : xs.Nodup := (List.nodup_cons.mp hnd).2
    have hxnotin : x ∉ xs := (List.nodup_cons.mp hnd).1
    rcases List.mem_cons.mp hc with rfl | hc2
    · have hcongr : xs.filter p = xs.filter q :=
        List.filter_congr (fun y hy =>
          hpq y (List.mem_cons_of_mem c hy) (fun hyx => hxnotin (hyx ▸ hy)))
      rw [List.filter_cons, List.filter_cons, hpc, hqc]
      simp [hcongr]
    · have hx : p x = q x := hpq x (List.mem_cons_self x xs)
        (fun hxc => hxnotin (hxc ▸ hc2))
      have ihh := ih hndx hc2 (fun y hy hyne => hpq y (List.mem_cons_of_mem x hy) hyne)
        hpc hqc
      rw [List.filter_cons, List.filter_cons, ← hx]
      cases hpx : p x with
      | false => simp [ihh]
      | true => simp [ihh]

/-- Number of fields whose grid entry is `MINE`. -/
def mineCount (h w : Int) (g : List (List Int)) : Nat :=
  ((fieldsList h w).filter (fun x => decide (pyGet2 g x.1 x.2 = some MINE))).length

theorem mineCount_pySet2 {h w : Int} {g : List (List Int)} {c : Int × Int}
    (hc : c ∈ fieldsList h w) (hnm : pyGet2 g c.1 c.2 ≠ some MINE)
    (hsome : (pyGet2 g c.1 c.2).isSome) :
    mineCount h w (pySet2 g c.1 c.2 MINE) = mineCount h w g + 1 := by
  unfold mineCount
  apply length_filter_update (fieldsList_nodup h w) hc
  · intro x hx hxc
    have hnnx : 0 ≤ x.1 ∧ 0 ≤ x.2 := nonneg_of_inRange (mem_fieldsList.mp hx)
    have hnnc : 0 ≤ c.1 ∧ 0 ≤ c.2 := nonneg_of_inRange (mem_fieldsList.mp hc)
    rw [pyGet2_pySet2_ne_cell hnnc hnnx.1 hnnx.2 hxc g MINE]
  · exact decide_eq_false hnm
  · have := pyGet2_pySet2_self hsome MINE
    simp [this]

theorem placeMines_spec (choose : List (Int × Int) → Nat) (h w : Int) :
    ∀ n (g : List (List Int)) (flds : List (Int × Int)) (g2 : List (List Int)),
      placeMines choose n g flds = some g2 →
      flds.Nodup → (∀ c ∈ flds, c ∈ fieldsList h w) →
      (∀ c ∈ flds, pyGet2 g c.1 c.2 ≠ some MINE ∧ (pyGet2 g c.1 c.2).isSome) →
      mineCount h w g2 = mineCount h w g + n := by
  intro n
  induction n with
  | zero =>
    intro g flds g2 hp hnd hsub hinv
    simp only [placeMines, Option.some.injEq] at hp
    subst hp
    rfl
  | succ n ih =>
    intro g flds g2 hp hnd hsub hinv
    cases flds with
    | nil => simp [placeMines] at hp
    | cons f fs =>
      simp only [placeMines] at hp
      set c := (f :: fs).get ⟨choose (f :: fs) % (f :: fs).length,
        Nat.mod_lt _ (Nat.succ_pos _)⟩ with hcdef
      have hcmem : c ∈ f :: fs := by
        rw [hcdef]
        exact List.get_mem _ _ _
      have hcin : c ∈ fieldsList h w := hsub c hcmem
      have hcinv := hinv c hcmem
      have hnnc : 0 ≤ c.1 ∧ 0 ≤ c.2 := nonneg_of_inRange (mem_fieldsList.mp hcin)
      have hstep : mineCount h w (pySet2 g c.1 c.2 MINE) = mineCount h w g + 1 :=
        mineCount_pySet2 hcin hcinv.1 hcinv.2
      have hrec := ih (pySet2 g c.1 c.2 MINE) ((f :: fs).erase c) g2 hp
        (List.Nodup.erase c hnd)
        (fun x hx => hsub x (List.mem_of_mem_erase hx))
        (fun x hx => by
          have hxc : x ≠ c := ((List.Nodup.mem_erase_iff hnd).mp hx).1
          have hxmem : x ∈ f :: fs := List.mem_of_mem_erase hx
          have hxinv := hinv x hxmem
          have hnnx : 0 ≤ x.1 ∧ 0 ≤ x.2 :=
            nonneg_of_inRange (mem_fieldsList.mp (hsub x hxmem))
          rw [pyGet2_pySet2_ne_cell hnnc hnnx.1 hnnx.2 hxc g MINE]
          exact hxinv)
      rw [hrec, hstep]
      omega

/-! ## Hint computation -/

theorem mineCountAt_nonneg (h w : Int) (g : List (List Int)) (c : Int × Int) :
    0 ≤ mineCountAt h w g c := by
  unfold mineCountAt
  exact Int.natCast_nonneg _

theorem mineCountAt_ne_mine (h w : Int) (g : List (List Int)) (c : Int × Int) :
    mineCountAt h w g c ≠ MINE := by
  have := mineCountAt_nonneg h w g c
  unfold MINE
  omega

theorem hintStep_eq_of_some {h w : Int} {g : List (List Int)} {c : Int × Int}
    {v : Int} (hv : pyGet2 g c.1 c.2 = some v) :
    hintStep h w g c
      = if v = MINE then g else pySet2 g c.1 c.2 (mineCountAt h w g c) := by
  unfold hintStep
  rw [hv]

theorem hintStep_eq_of_none {h w : Int} {g : List (List Int)} {c : Int × Int}
    (hv : pyGet2 g c.1 c.2 = none) : hintStep h w g c = g := by
  unfold hintStep
  rw [hv]

theorem hintStep_mineAt (h w : Int) (g : List (List Int)) (c : Int × Int)
    (x y : Int) :
    (pyGet2 (hintStep h w g c) x y = some MINE ↔ pyGet2 g x y = some MINE) := by
  cases hv : pyGet2 g c.1 c.2 with
  | none => rw [hintStep_eq_of_none hv]
  | some v =>
    by_cases hm : v = MINE
    · rw [hintStep_eq_of_some hv, if_pos hm]
    · rw [hintStep_eq_of_some hv, if_neg hm]
      rcases pyGet2_pySet2_cases g c.1 c.2 x y (mineCountAt h w g c) with hc | ⟨hc1, hc2⟩
      · rw [hc]
      · rw [hc1, hc2, hv]
        constructor
        · intro hh
          injection hh with hh2
          exact absurd hh2 (mineCountAt_ne_mine h w g c)
        · intro hh
          injection hh with hh2
          exact absurd hh2 hm

theorem foldl_hintStep_mineAt (h w : Int) :
    ∀ (flds : List (Int × Int)) (g : List (List Int)) (x y : Int),
      (pyGet2 (flds.foldl (hintStep h w) g) x y = some MINE ↔
        pyGet2 g x y = some MINE) := by
  intro flds
  induction flds with
  | nil => intro g x y; exact Iff.rfl
  | cons c cs ih =>
    intro g x y
    rw [List.foldl_cons]
    exact (ih (hintStep h w g c) x y).trans (hintStep_mineAt h w g c x y)

theorem mineCountAt_congr {h w : Int} {g g2 : List (List Int)}
    (hmm : ∀ x y : Int, pyGet2 g2 x y = some MINE ↔ pyGet2 g x y = some MINE)
    (c : Int × Int) : mineCountAt h w g2 c = mineCountAt h w g c := by
  unfold mineCountAt
  have hfc : List.filter (fun d => decide (pyGet2 g2 d.1 d.2 = some MINE))
        (neighbors h w c.1 c.2)
      = List.filter (fun d => decide (pyGet2 g d.1 d.2 = some MINE))
        (neighbors h w c.1 c.2) :=
    List.filter_congr (fun d _ => decide_eq_decide.mpr (hmm d.1 d.2))
  rw [hfc]

theorem mineCount_congr {h w : Int} {g g2 : List (List Int)}
    (hmm : ∀ x y : Int, pyGet2 g2 x y = some MINE ↔ pyGet2 g x y = some MINE) :
    mineCount h w g2 = mineCount h w g := by
  unfold mineCount
  have hfc : List.filter (fun d => decide (pyGet2 g2 d.1 d.2 = some MINE))
        (fieldsList h w)
      = List.filter (fun d => decide (pyGet2 g d.1 d.2 = some MINE))
        (fieldsList h w) :=
    List.filter_congr (fun d _ => decide_eq_decide.mpr (hmm d.1 d.2))
  rw [hfc]

theorem hintStep_shaped {h w : Int} {g : List (List Int)}
    (hs : Shaped h w g) (c : Int × Int) : Shaped h w (hintStep h w g c) := by
  cases hv : pyGet2 g c.1 c.2 with
  | none => rw [hintStep_eq_of_none hv]; exact hs
  | some v =>
    by_cases hm : v = MINE
    · rw [hintStep_eq_of_some hv, if_pos hm]; exact hs
    · rw [hintStep_eq_of_some hv, if_neg hm]; exact shaped_pySet2 hs _ _ _

theorem hintStep_other {h w : Int} {g : List (List Int)} {c x : Int × Int}
    (hc : inRange h w c) (hx : 0 ≤ x.1 ∧ 0 ≤ x.2) (hne : x ≠ c) :
    pyGet2 (hintStep h w g c) x.1 x.2 = pyGet2 g x.1 x.2 := by
  cases hv : pyGet2 g c.1 c.2 with
  | none => rw [hintStep_eq_of_none hv]
  | some v =>
    by_cases hm : v = MINE
    · rw [hintStep_eq_of_some hv, if_pos hm]
    · rw [hintStep_eq_of_some hv, if_neg hm]
      exact pyGet2_pySet2_ne_cell (nonneg_of_inRange hc) hx.1 hx.2 hne g _

theorem foldl_hintStep_spec (h w : Int) :
    ∀ (flds : List (Int × Int)) (g : List (List Int)),
      flds.Nodup → (∀ c ∈ flds, c ∈ fieldsList h w) → Shaped h w g →
      (∀ c ∈ flds, pyGet2 g c.1 c.2 ≠ some MINE →
        pyGet2 (flds.foldl (hintStep h w) g) c.1 c.2 = some (mineCountAt h w g c)) ∧
      (∀ x : Int × Int, 0 ≤ x.1 ∧ 0 ≤ x.2 → x ∉ flds →
        pyGet2 (flds.foldl (hintStep h w) g) x.1 x.2 = pyGet2 g x.1 x.2) := by
  intro flds
  induction flds with
  | nil =>
    intro g _ _ _
    exact ⟨fun c hc => absurd hc (List.not_mem_nil c), fun x _ _ => rfl⟩
  | cons c cs ih =>
    intro g hnd hsub hshaped
    have hcin : c ∈ fieldsList h w := hsub c (List.mem_cons_self c cs)
    have hcrange : inRange h w c := mem_fieldsList.mp hcin
    have hndcs : cs.Nodup := (List.nodup_cons.mp hnd).2
    have hcnotin : c ∉ cs := (List.nodup_cons.mp hnd).1
    have hsubcs : ∀ x ∈ cs, x ∈ fieldsList h w :=
      fun x hx => hsub x (List.mem_cons_of_mem c hx)
    have hshaped1 : Shaped h w (hintStep h w g c) := hintStep_shaped hshaped c
    have hih := ih (hintStep h w g c) hndcs hsubcs hshaped1
    rw [List.foldl_cons]
    constructor
    · intro e he hnm
      rcases List.mem_cons.mp he with rfl | he2
      · -- the processed cell itself
        obtain ⟨v, hv⟩ := shaped_pyGet2_isSome hshaped hcrange
        have hvnm : v ≠ MINE := by
          intro hh
          exact hnm (hh ▸ hv)
        have hset : hintStep h w g e = pySet2 g e.1 e.2 (mineCountAt h w g e) := by
          rw [hintStep_eq_of_some hv, if_neg hvnm]
        have hval : pyGet2 (hintStep h w g e) e.1 e.2 = some (mineCountAt h w g e) := by
          rw [hset]
          exact pyGet2_pySet2_self (by rw [hv]; rfl) _
        rw [hih.2 e (nonneg_of_inRange hcrange) hcnotin, hval]
      · -- a later cell
        have hne : e ≠ c := fun hh => hcnotin (hh ▸ he2)
        have hein : e ∈ fieldsList h w := hsubcs e he2
        have herange : inRange h w e := mem_fieldsList.mp hein
        have hunch : pyGet2 (hintStep h w g c) e.1 e.2 = pyGet2 g e.1 e.2 :=
          hintStep_other hcrange (nonneg_of_inRange herange) hne
        have hnm1 : pyGet2 (hintStep h w g c) e.1 e.2 ≠ some MINE := by
          rw [hunch]
          exact hnm
        have := hih.1 e he2 hnm1
        rw [this]
        congr 1
        exact mineCountAt_congr (hintStep_mineAt h w g c) e
    · intro x hxnn hxnotin
      have hxne : x ≠ c := fun hh => hxnotin (hh ▸ List.mem_cons_self c cs)
      have hxnotcs : x ∉ cs := fun hh => hxnotin (List.mem_cons_of_mem c hh)
      rw [hih.2 x hxnn hxnotcs]
      exact hintStep_other hcrange hxnn hxne

theorem computeHints_shaped {h w : Int} {g : List (List Int)} (hs : Shaped h w g) :
    Shaped h w (computeHints h w g) := by
  unfold computeHints
  have : ∀ (flds : List (Int × Int)) (g0 : List (List Int)), Shaped h w g0 →
      Shaped h w (flds.foldl (hintStep h w) g0) := by
    intro flds
    induction flds with
    | nil => intro g0 hg0; exact hg0
    | cons c cs ih =>
      intro g0 hg0
      rw [List.foldl_cons]
      exact ih _ (hintStep_shaped hg0 c)
  exact this _ g hs

/-! ## Equations for the mutators and the constructor -/

theorem flag_eq_of_none {b : Minesweeper} {i j : Int}
    (hv : pyGet2 b.state_grid i j = none) :
    flag b i j = (b, some PyErr.indexError) := by
  unfold flag
  rw [hv]

theorem flag_eq_of_some {b : Minesweeper} {i j : Int} {s : CellState}
    (hv : pyGet2 b.state_grid i j = some s) :
    flag b i j = if s ≠ CellState.covered then (b, some PyErr.illegal)
      else ({ b with state_grid := pySet2 b.state_grid i j CellState.flagged }, none) := by
  unfold flag
  rw [hv]

theorem unflag_eq_of_none {b : Minesweeper} {i j : Int}
    (hv : pyGet2 b.state_grid i j = none) :
    unflag b i j = (b, some PyErr.indexError) := by
  unfold unflag
  rw [hv]

theorem unflag_eq_of_some {b : Minesweeper} {i j : Int} {s : CellState}
    (hv : pyGet2 b.state_grid i j = some s) :
    unflag b i j = if s ≠ CellState.flagged then (b, some PyErr.illegal)
      else ({ b with state_grid := pySet2 b.state_grid i j CellState.covered }, none) := by
  unfold unflag
  rw [hv]

theorem uncover_eq_of_none {pick : List (Int × Int) → Nat} {b : Minesweeper} {i j : Int}
    (hv : pyGet2 b.state_grid i j = none) :
    uncover pick b i j = (b, some PyErr.indexError) := by
  unfold uncover
  rw [hv]

theorem uncover_eq_of_some {pick : List (Int × Int) → Nat} {b : Minesweeper} {i j : Int}
    {s : CellState} (hv : pyGet2 b.state_grid i j = some s) :
    uncover pick b i j = if s ≠ CellState.covered then (b, some PyErr.illegal)
      else
        match pyGet2 b.grid i j with
        | none =>
          ({ b with state_grid := pySet2 b.state_grid i j CellState.uncovered },
            some PyErr.indexError)
        | some v =>
          if v = 0 then
            ({ b with state_grid :=
                (runCascade b.grid b.height b.width pick
                  (pySet2 b.state_grid i j CellState.uncovered)
                  (neighbors b.height b.width i j)) }, none)
          else
            ({ b with state_grid := pySet2 b.state_grid i j CellState.uncovered }, none) := by
  unfold uncover
  rw [hv]

theorem uncover_eq_illegal {pick : List (Int × Int) → Nat} {b : Minesweeper} {i j : Int}
    {s : CellState} (hv : pyGet2 b.state_grid i j = some s)
    (hs : s ≠ CellState.covered) :
    uncover pick b i j = (b, some PyErr.illegal) := by
  rw [uncover_eq_of_some hv, if_pos hs]

theorem uncover_eq_zero {pick : List (Int × Int) → Nat} {b : Minesweeper} {i j : Int}
    (hv : pyGet2 b.state_grid i j = some CellState.covered)
    (hz : pyGet2 b.grid i j = some 0) :
    uncover pick b i j = ({ b with state_grid :=
        (runCascade b.grid b.height b.width pick
          (pySet2 b.state_grid i j CellState.uncovered)
          (neighbors b.height b.width i j)) }, none) := by
  rw [uncover_eq_of_some hv, if_neg (not_not_intro rfl), hz]
  rfl

theorem uncover_eq_nonzero {pick : List (Int × Int) → Nat} {b : Minesweeper} {i j : Int}
    {v : Int} (hv : pyGet2 b.state_grid i j = some CellState.covered)
    (hg : pyGet2 b.grid i j = some v) (hvz : v ≠ 0) :
    uncover pick b i j
      = ({ b with state_grid := pySet2 b.state_grid i j CellState.uncovered }, none) := by
  rw [uncover_eq_of_some hv, if_neg (not_not_intro rfl), hg]
  exact if_neg hvz

theorem uncover_eq_grid_none {pick : List (Int × Int) → Nat} {b : Minesweeper} {i j : Int}
    (hv : pyGet2 b.state_grid i j = some CellState.covered)
    (hg : pyGet2 b.grid i j = none) :
    uncover pick b i j
      = ({ b with state_grid := pySet2 b.state_grid i j CellState.uncovered },
          some PyErr.indexError) := by
  rw [uncover_eq_of_some hv, if_neg (not_not_intro rfl), hg]

theorem placeMines_shaped (choose : List (Int × Int) → Nat) (h w : Int) :
    ∀ n (g : List (List Int)) (flds : List (Int × Int)) (g2 : List (List Int)),
      placeMines choose n g flds = some g2 → Shaped h w g → Shaped h w g2 := by
  intro n
  induction n with
  | zero =>
    intro g flds g2 hp hs
    simp only [placeMines, Option.some.injEq] at hp
    subst hp
    exact hs
  | succ n ih =>
    intro g flds g2 hp hs
    cases flds with
    | nil => simp [placeMines] at hp
    | cons f fs =>
      simp only [placeMines] at hp
      exact ih _ _ g2 hp (shaped_pySet2 hs _ _ _)

theorem mkMinesweeper_none_iff (choose : List (Int × Int) → Nat) (h w m : Int) :
    mkMinesweeper choose h w m = none ↔ h.toNat * w.toNat < m.toNat := by
  unfold mkMinesweeper
  cases hp : placeMines choose m.toNat
      (List.replicate h.toNat (List.replicate w.toNat 0)) (fieldsList h w) with
  | none =>
    simp only [hp]
    constructor
    · intro _
      have := (placeMines_none_iff choose m.toNat _ _).mp hp
      rw [fieldsList_length] at this
      exact this
    · intro _
      trivial
  | some g1 =>
    simp only [hp]
    constructor
    · intro hh
      cases hh
    · intro hlt
      have : placeMines choose m.toNat
          (List.replicate h.toNat (List.replicate w.toNat 0)) (fieldsList h w) = none := by
        apply (placeMines_none_iff choose m.toNat _ _).mpr
        rw [fieldsList_length]
        exact hlt
      rw [hp] at this
      cases this

theorem mkMinesweeper_elim {choose : List (Int × Int) → Nat} {h w m : Int}
    {b : Minesweeper} (hb : mkMinesweeper choose h w m = some b) :
    ∃ g1, placeMines choose m.toNat
        (List.replicate h.toNat (List.replicate w.toNat 0)) (fieldsList h w) = some g1 ∧
      b = { height := h, width := w, mines := m, grid := computeHints h w g1,
            state_grid :=
              List.replicate h.toNat (List.replicate w.toNat CellState.covered) } := by
  unfold mkMinesweeper at hb
  cases hp : placeMines choose m.toNat
      (List.replicate h.toNat (List.replicate w.toNat 0)) (fieldsList h w) with
  | none =>
    simp only [hp] at hb
    exact Option.noConfusion hb
  | some g1 =>
    simp only [hp, Option.some.injEq] at hb
    exact ⟨g1, rfl, hb.symm⟩

theorem mkMinesweeper_fields {choose : List (Int × Int) → Nat} {h w m : Int}
    {b : Minesweeper} (hb : mkMinesweeper choose h w m = some b) :
    b.height = h ∧ b.width = w ∧ b.mines = m ∧ Shaped h w b.grid ∧
      Shaped h w b.state_grid ∧
      (∀ c : Int × Int, inRange h w c →
        pyGet2 b.state_grid c.1 c.2 = some CellState.covered) := by
  obtain ⟨g1, hp, rfl⟩ := mkMinesweeper_elim hb
  have hg1 : Shaped h w g1 :=
    placeMines_shaped choose h w _ _ _ g1 hp (shaped_replicate h w 0)
  refine ⟨rfl, rfl, rfl, computeHints_shaped hg1, shaped_replicate h w _, ?_⟩
  intro c hc
  exact pyGet2_replicate hc CellState.covered

theorem mkMinesweeper_hints {choose : List (Int × Int) → Nat} {h w m : Int}
    {b : Minesweeper} (hb : mkMinesweeper choose h w m = some b)
    (c : Int × Int) (hc : inRange h w c)
    (hnm : pyGet2 b.grid c.1 c.2 ≠ some MINE) :
    pyGet2 b.grid c.1 c.2 = some (mineCountAt h w b.grid c) := by
  obtain ⟨g1, hp, rfl⟩ := mkMinesweeper_elim hb
  have hg1 : Shaped h w g1 :=
    placeMines_shaped choose h w _ _ _ g1 hp (shaped_replicate h w 0)
  simp only [] at hnm ⊢
  have hmiff := foldl_hintStep_mineAt h w (fieldsList h w) g1
  have hspec := foldl_hintStep_spec h w (fieldsList h w) g1 (fieldsList_nodup h w)
    (fun x hx => hx) hg1
  have hnm1 : pyGet2 g1 c.1 c.2 ≠ some MINE := by
    intro hh
    apply hnm
    show pyGet2 ((fieldsList h w).foldl (hintStep h w) g1) c.1 c.2 = some MINE
    exact (hmiff c.1 c.2).mpr hh
  have hval := hspec.1 c (mem_fieldsList.mpr hc) hnm1
  show pyGet2 ((fieldsList h w).foldl (hintStep h w) g1) c.1 c.2 = _
  rw [hval]
  congr 1
  exact (mineCountAt_congr (fun x y => hmiff x y) c).symm

theorem mkMinesweeper_mineCount {choose : List (Int × Int) → Nat} {h w m : Int}
    {b : Minesweeper} (hb : mkMinesweeper choose h w m = some b) :
    mineCount h w b.grid = m.toNat := by
  obtain ⟨g1, hp, rfl⟩ := mkMinesweeper_elim hb
  have hcnt0 : mineCount h w (List.replicate h.toNat (List.replicate w.toNat (0 : Int)))
      = 0 := by
    unfold mineCount
    have : List.filter
        (fun x => decide (pyGet2 (List.replicate h.toNat (List.replicate w.toNat (0 : Int)))
          x.1 x.2 = some MINE)) (fieldsList h w) = [] := by
      apply List.filter_eq_nil.mpr
      intro a ha
      rw [pyGet2_replicate (mem_fieldsList.mp ha) (0 : Int)]
      simp [MINE]
    rw [this]
    rfl
  have hcnt1 : mineCount h w g1 = m.toNat := by
    have := placeMines_spec choose h w m.toNat _ _ g1 hp (fieldsList_nodup h w)
      (fun x hx => hx)
      (fun x hx => by
        rw [pyGet2_replicate (mem_fieldsList.mp hx) (0 : Int)]
        constructor
        · simp [MINE]
        · rfl)
    rw [hcnt0] at this
    simpa using this
  show mineCount h w (computeHints h w g1) = m.toNat
  unfold computeHints
  rw [mineCount_congr (fun x y => foldl_hintStep_mineAt h w (fieldsList h w) g1 x y)]
  exact hcnt1

/-! ## Proper-neighbor counting (for the hint claim) -/

/-- The mine-holding cells among the actual (self-excluded) neighbors of `c`. -/
def properNeighborMines (h w : Int) (g : List (List Int)) (c : Int × Int) :
    List (Int × Int) :=
  ((neighbors h w c.1 c.2).filter (fun d => decide (d ≠ c))).filter
    (fun d => decide (pyGet2 g d.1 d.2 = some MINE))

theorem filter_restrict_ne {α : Type} [DecidableEq α] (p : α → Bool) (c : α)
    (hpc : p c = false) :
    ∀ l : List α, l.filter p = (l.filter (fun d => decide (d ≠ c))).filter p := by
  intro l
  induction l with
  | nil => rfl
  | cons x xs ih =>
    by_cases hxc : x = c
    · subst hxc
      rw [List.filter_cons, hpc]
      simp only [List.filter_cons]
      rw [ih]
      simp
    · have hstep : List.filter (fun d => decide (d ≠ c)) (x :: xs)
          = x :: List.filter (fun d => decide (d ≠ c)) xs := by
        simp [List.filter_cons, hxc]
      rw [List.filter_cons, hstep, List.filter_cons]
      cases hpx : p x with
      | false => simp [ih]
      | true => simp [ih]

theorem filter_ne_length {α : Type} [DecidableEq α] :
    ∀ {l : List α} {c : α}, l.Nodup → c ∈ l →
      (l.filter (fun d => decide (d ≠ c))).length + 1 = l.length := by
  intro l
  induction l with
  | nil =>
    intro c _ hc
    cases hc
  | cons x xs ih =>
    intro c hnd hc
    have hndx : xs.Nodup := (List.nodup_cons.mp hnd).2
    have hxnotin : x ∉ xs := (List.nodup_cons.mp hnd).1
    rcases List.mem_cons.mp hc with rfl | hc2
    · rw [List.filter_cons]
      have hd : decide (c ≠ c) = false := by simp
      rw [hd]
      have hall : xs.filter (fun d => decide (d ≠ c)) = xs := by
        apply List.filter_eq_self.mpr
        intro a ha
        simp only [decide_eq_true_eq]
        intro hh
        exact hxnotin (hh ▸ ha)
      rw [if_neg (by simp), hall, List.length_cons]
    · have hxc : x ≠ c := fun hh => hxnotin (hh ▸ hc2)
      rw [List.filter_cons]
      have hd : decide (x ≠ c) = true := by simp [hxc]
      rw [hd]
      have := ih hndx hc2
      simp only [List.length_cons, if_true]
      simp only [List.length_cons] at this ⊢
      omega

theorem self_mem_neighbors_cell {h w : Int} {c : Int × Int} (hc : inRange h w c) :
    c ∈ neighbors h w c.1 c.2 := by
  obtain ⟨c1, c2⟩ := c
  exact self_mem_neighbors hc

/-! ## Restore lemma (for flag/unflag round-trip) -/

theorem set_of_getElem_eq {α : Type} :
    ∀ {l : List α} {k : Nat} {a : α}, l[k]? = some a → l.set k a = l := by
  intro l
  induction l with
  | nil =>
    intro k a hv
    simp at hv
  | cons x xs ih =>
    intro k a hv
    cases k with
    | zero =>
      simp only [List.getElem?_cons_zero, Option.some.injEq] at hv
      subst hv
      rfl
    | succ k2 =>
      simp only [List.getElem?_cons_succ] at hv
      rw [List.set_cons_succ, ih hv]

theorem pySet2_restore {α : Type} {g : List (List α)} {i j : Int} {a : α}
    (hv : pyGet2 g i j = some a) (x : α) :
    pySet2 (pySet2 g i j x) i j a = g := by
  cases hk : pyIdx g.length i with
  | none => rw [pyGet2_of_idx_none hk] at hv; cases hv
  | some k =>
    obtain ⟨row, hrow⟩ := row_of_pyIdx hk
    rw [pyGet2_of_row hk hrow] at hv
    cases hk2 : pyIdx row.length j with
    | none => rw [pyGet_of_idx_none hk2] at hv; cases hv
    | some k2 =>
      rw [pyGet_of_idx hk2] at hv
      rw [pySet2_of_idx hk hrow, pySet_of_idx hk2]
      have hlt : k < g.length := pyIdx_lt hk
      have hk2b : pyIdx (g.set k (row.set k2 x)).length i = some k := by
        rw [List.length_set]
        exact hk
      have hrow2 : (g.set k (row.set k2 x))[k]? = some (row.set k2 x) := by
        rw [List.getElem?_set]
        simp [hlt]
      rw [pySet2_of_idx hk2b hrow2]
      have hk3 : pyIdx (row.set k2 x).length j = some k2 := by
        rw [List.length_set]
        exact hk2
      rw [pySet_of_idx hk3, List.set_set, List.set_set]
      rw [set_of_getElem_eq hv]
      exact set_of_getElem_eq hrow

/-! ## Negative-index aliasing -/

theorem pyIdx_neg {n : Nat} {i : Int} (h1 : -(n : Int) ≤ i) (h2 : i < 0) :
    pyIdx n i = some (i + (n : Int)).toNat := by
  unfold pyIdx
  rw [if_neg (by omega), if_pos (by omega)]

theorem pyGet2_alias {α : Type} {hh ww : Int} {g : List (List α)}
    (hs : Shaped hh ww g) {i j : Int} (hi1 : -hh ≤ i) (hi2 : i < 0)
    (hj1 : -ww ≤ j) (hj2 : j < 0) :
    pyGet2 g i j = pyGet2 g (hh + i) (ww + j) := by
  have hglen : (g.length : Int) = hh := by
    rw [hs.1]
    exact Int.toNat_of_nonneg (by omega)
  have hk1 : pyIdx g.length i = some (i + (g.length : Int)).toNat :=
    pyIdx_neg (by omega) hi2
  have hk2 : pyIdx g.length (hh + i) = some (hh + i).toNat :=
    pyIdx_of_nonneg (by omega) (by omega)
  have hkk : (i + (g.length : Int)).toNat = (hh + i).toNat := by omega
  rw [hkk] at hk1
  obtain ⟨row, hrow⟩ := row_of_pyIdx hk1
  have hrmem : row ∈ g := by
    obtain ⟨hlt, heq⟩ := List.getElem?_eq_some_iff.mp hrow
    rw [← heq]
    exact List.getElem_mem hlt
  have hrlen : (row.length : Int) = ww := by
    rw [hs.2 row hrmem]
    exact Int.toNat_of_nonneg (by omega)
  have hjk1 : pyIdx row.length j = some (j + (row.length : Int)).toNat :=
    pyIdx_neg (by omega) hj2
  have hjk2 : pyIdx row.length (ww + j) = some (ww + j).toNat :=
    pyIdx_of_nonneg (by omega) (by omega)
  have hjj : (j + (row.length : Int)).toNat = (ww + j).toNat := by omega
  rw [hjj] at hjk1
  rw [pyGet2_of_row hk1 hrow, pyGet2_of_row hk2 hrow, pyGet_of_idx hjk1,
    pyGet_of_idx hjk2]

theorem pySet2_alias {α : Type} {hh ww : Int} {g : List (List α)}
    (hs : Shaped hh ww g) {i j : Int} (hi1 : -hh ≤ i) (hi2 : i < 0)
    (hj1 : -ww ≤ j) (hj2 : j < 0) (a : α) :
    pySet2 g i j a = pySet2 g (hh + i) (ww + j) a := by
  have hglen : (g.length : Int) = hh := by
    rw [hs.1]
    exact Int.toNat_of_nonneg (by omega)
  have hk1 : pyIdx g.length i = some (i + (g.length : Int)).toNat :=
    pyIdx_neg (by omega) hi2
  have hk2 : pyIdx g.length (hh + i) = some (hh + i).toNat :=
    pyIdx_of_nonneg (by omega) (by omega)
  have hkk : (i + (g.length : Int)).toNat = (hh + i).toNat := by omega
  rw [hkk] at hk1
  obtain ⟨row, hrow⟩ := row_of_pyIdx hk1
  have hrmem : row ∈ g := by
    obtain ⟨hlt, heq⟩ := List.getElem?_eq_some_iff.mp hrow
    rw [← heq]
    exact List.getElem_mem hlt
  have hrlen : (row.length : Int) = ww := by
    rw [hs.2 row hrmem]
    exact Int.toNat_of_nonneg (by omega)
  have hjk1 : pyIdx row.length j = some (j + (row.length : Int)).toNat :=
    pyIdx_neg (by omega) hj2
  have hjk2 : pyIdx row.length (ww + j) = some (ww + j).toNat :=
    pyIdx_of_nonneg (by omega) (by omega)
  have hjj : (j + (row.length : Int)).toNat = (ww + j).toNat := by omega
  rw [hjj] at hjk1
  rw [pySet2_of_idx hk1 hrow, pySet2_of_idx hk2 hrow, pySet_of_idx hjk1,
    pySet_of_idx hjk2]

theorem flag_alias {b : Minesweeper}
    (hs : Shaped b.height b.width b.state_grid) {i j : Int}
    (hi1 : -b.height ≤ i) (hi2 : i < 0) (hj1 : -b.width ≤ j) (hj2 : j < 0) :
    flag b i j = flag b (b.height + i) (b.width + j) := by
  unfold flag
  rw [pyGet2_alias hs hi1 hi2 hj1 hj2, pySet2_alias hs hi1 hi2 hj1 hj2]

theorem unflag_alias {b : Minesweeper}
    (hs : Shaped b.height b.width b.state_grid) {i j : Int}
    (hi1 : -b.height ≤ i) (hi2 : i < 0) (hj1 : -b.width ≤ j) (hj2 : j < 0) :
    unflag b i j = unflag b (b.height + i) (b.width + j) := by
  unfold unflag
  rw [pyGet2_alias hs hi1 hi2 hj1 hj2, pySet2_alias hs hi1 hi2 hj1 hj2]

/-! ## Transition discipline of the mutators -/

theorem cu_compose {o m n : Option CellState}
    (h1 : m = o ∨ (o = some CellState.covered ∧ m = some CellState.uncovered))
    (h2 : n = m ∨ (m = some CellState.covered ∧ n = some CellState.uncovered)) :
    n = o ∨ (o = some CellState.covered ∧ n = some CellState.uncovered) := by
  rcases h1 with h1 | ⟨h1a, h1b⟩
  · rcases h2 with h2 | ⟨h2a, h2b⟩
    · exact Or.inl (h2.trans h1)
    · exact Or.inr ⟨h1 ▸ h2a, h2b⟩
  · rcases h2 with h2 | ⟨h2a, h2b⟩
    · exact Or.inr ⟨h1a, h2.trans h1b⟩
    · rw [h1b] at h2a
      cases h2a

theorem applyOp_frame (b : Minesweeper) (op : Op) :
    (applyOp b op).grid = b.grid ∧ (applyOp b op).height = b.height ∧
      (applyOp b op).width = b.width := by
  cases op with
  | flagOp i j =>
    simp only [applyOp]
    cases hv : pyGet2 b.state_grid i j with
    | none => rw [flag_eq_of_none hv]; exact ⟨rfl, rfl, rfl⟩
    | some s =>
      rw [flag_eq_of_some hv]
      by_cases hs : s ≠ CellState.covered
      · rw [if_pos hs]; exact ⟨rfl, rfl, rfl⟩
      · rw [if_neg hs]; exact ⟨rfl, rfl, rfl⟩
  | unflagOp i j =>
    simp only [applyOp]
    cases hv : pyGet2 b.state_grid i j with
    | none => rw [unflag_eq_of_none hv]; exact ⟨rfl, rfl, rfl⟩
    | some s =>
      rw [unflag_eq_of_some hv]
      by_cases hs : s ≠ CellState.flagged
      · rw [if_pos hs]; exact ⟨rfl, rfl, rfl⟩
      · rw [if_neg hs]; exact ⟨rfl, rfl, rfl⟩
  | uncoverOp pick i j =>
    simp only [applyOp]
    cases hv : pyGet2 b.state_grid i j with
    | none => rw [uncover_eq_of_none hv]; exact ⟨rfl, rfl, rfl⟩
    | some s =>
      by_cases hs : s ≠ CellState.covered
      · rw [uncover_eq_illegal hv hs]; exact ⟨rfl, rfl, rfl⟩
      · rw [not_not] at hs
        subst hs
        cases hg : pyGet2 b.grid i j with
        | none => rw [uncover_eq_grid_none hv hg]; exact ⟨rfl, rfl, rfl⟩
        | some v =>
          by_cases hvz : v = 0
          · subst hvz
            rw [uncover_eq_zero hv hg]
            exact ⟨rfl, rfl, rfl⟩
          · rw [uncover_eq_nonzero hv hg hvz]
            exact ⟨rfl, rfl, rfl⟩

theorem applyOp_transition (b : Minesweeper) (op : Op) (c : Int × Int) :
    pyGet2 (applyOp b op).state_grid c.1 c.2 = pyGet2 b.state_grid c.1 c.2 ∨
    (pyGet2 b.state_grid c.1 c.2 = some CellState.covered ∧
      pyGet2 (applyOp b op).state_grid c.1 c.2 = some CellState.flagged) ∨
    (pyGet2 b.state_grid c.1 c.2 = some CellState.flagged ∧
      pyGet2 (applyOp b op).state_grid c.1 c.2 = some CellState.covered) ∨
    (pyGet2 b.state_grid c.1 c.2 = some CellState.covered ∧
      pyGet2 (applyOp b op).state_grid c.1 c.2 = some CellState.uncovered) := by
  cases op with
  | flagOp i j =>
    simp only [applyOp]
    cases hv : pyGet2 b.state_grid i j with
    | none => rw [flag_eq_of_none hv]; exact Or.inl rfl
    | some s =>
      rw [flag_eq_of_some hv]
      by_cases hs : s ≠ CellState.covered
      · rw [if_pos hs]; exact Or.inl rfl
      · rw [not_not] at hs
        subst hs
        rw [if_neg (not_not_intro rfl)]
        rcases pyGet2_pySet2_cases b.state_grid i j c.1 c.2 CellState.flagged
            with hh | ⟨hh1, hh2⟩
        · exact Or.inl hh
        · exact Or.inr (Or.inl ⟨hh2.trans hv, hh1⟩)
  | unflagOp i j =>
    simp only [applyOp]
    cases hv : pyGet2 b.state_grid i j with
    | none => rw [unflag_eq_of_none hv]; exact Or.inl rfl
    | some s =>
      rw [unflag_eq_of_some hv]
      by_cases hs : s ≠ CellState.flagged
      · rw [if_pos hs]; exact Or.inl rfl
      · rw [not_not] at hs
        subst hs
        rw [if_neg (not_not_intro rfl)]
        rcases pyGet2_pySet2_cases b.state_grid i j c.1 c.2 CellState.covered
            with hh | ⟨hh1, hh2⟩
        · exact Or.inl hh
        · exact Or.inr (Or.inr (Or.inl ⟨hh2.trans hv, hh1⟩))
  | uncoverOp pick i j =>
    simp only [applyOp]
    cases hv : pyGet2 b.state_grid i j with
    | none => rw [uncover_eq_of_none hv]; exact Or.inl rfl
    | some s =>
      by_cases hs : s ≠ CellState.covered
      · rw [uncover_eq_illegal hv hs]; exact Or.inl rfl
      · rw [not_not] at hs
        subst hs
        have hset : pyGet2 (pySet2 b.state_grid i j CellState.uncovered) c.1 c.2
              = pyGet2 b.state_grid c.1 c.2 ∨
            (pyGet2 b.state_grid c.1 c.2 = some CellState.covered ∧
              pyGet2 (pySet2 b.state_grid i j CellState.uncovered) c.1 c.2
                = some CellState.uncovered) := by
          rcases pyGet2_pySet2_cases b.state_grid i j c.1 c.2 CellState.uncovered
              with hh | ⟨hh1, hh2⟩
          · exact Or.inl hh
          · exact Or.inr ⟨hh2.trans hv, hh1⟩
        cases hg : pyGet2 b.grid i j with
        | none =>
          rw [uncover_eq_grid_none hv hg]
          rcases hset with hh | hh
          · exact Or.inl hh
          · exact Or.inr (Or.inr (Or.inr hh))
        | some v =>
          by_cases hvz : v = 0
          · subst hvz
            rw [uncover_eq_zero hv hg]
            have hcasc := runCascade_transition b.grid b.height b.width pick
              (pySet2 b.state_grid i j CellState.uncovered)
              (neighbors b.height b.width i j) c.1 c.2
            rcases cu_compose hset hcasc with hh | hh
            · exact Or.inl hh
            · exact Or.inr (Or.inr (Or.inr hh))
          · rw [uncover_eq_nonzero hv hg hvz]
            rcases hset with hh | hh
            · exact Or.inl hh
            · exact Or.inr (Or.inr (Or.inr hh))

theorem foldl_applyOp_frame (b : Minesweeper) (ops : List Op) :
    (ops.foldl applyOp b).grid = b.grid ∧ (ops.foldl applyOp b).height = b.height ∧
      (ops.foldl applyOp b).width = b.width := by
  induction ops generalizing b with
  | nil => exact ⟨rfl, rfl, rfl⟩
  | cons op ops ih =>
    rw [List.foldl_cons]
    have h1 := applyOp_frame b op
    have h2 := ih (applyOp b op)
    exact ⟨h2.1.trans h1.1, h2.2.1.trans h1.2.1, h2.2.2.trans h1.2.2⟩

theorem foldl_applyOp_uncovered (b : Minesweeper) (ops : List Op) (c : Int × Int)
    (hu : pyGet2 b.state_grid c.1 c.2 = some CellState.uncovered) :
    pyGet2 (ops.foldl applyOp b).state_grid c.1 c.2 = some CellState.uncovered := by
  induction ops generalizing b with
  | nil => exact hu
  | cons op ops ih =>
    rw [List.foldl_cons]
    apply ih
    rcases applyOp_transition b op c with hh | ⟨hh1, _⟩ | ⟨hh1, _⟩ | ⟨hh1, _⟩
    · exact hh.trans hu
    · rw [hu] at hh1; cases hh1
    · rw [hu] at hh1; cases hh1
    · rw [hu] at hh1; cases hh1

theorem game_lost_foldl (b : Minesweeper) (ops : List Op)
    (hl : game_lost b = true) : game_lost (ops.foldl applyOp b) = true := by
  unfold game_lost at hl ⊢
  obtain ⟨cc, hmem, hcc⟩ := List.any_eq_true.mp hl
  rw [decide_eq_true_eq] at hcc
  have hframe := foldl_applyOp_frame b ops
  apply List.any_eq_true.mpr
  refine ⟨cc, ?_, ?_⟩
  · rw [hframe.2.1, hframe.2.2]
    exact hmem
  · rw [decide_eq_true_eq, hframe.1]
    exact ⟨hcc.1, foldl_applyOp_uncovered b ops cc hcc.2⟩

instance {α : Type} (h w : Int) (g : List (List α)) : Decidable (Shaped h w g) := by
  unfold Shaped
  infer_instance

/-! ## Claim theorems -/

/-- Claim C1 (amended): on a board whose visibility grid has the board's
shape, uncovering a `Covered`, hint-0, non-mine cell `(i, j)` succeeds and
uncovers exactly `UncSet`: the cell `(i, j)`, the maximal 8-connected region
of `Covered` zero-hint cells containing it, and the `Covered` non-mine cells
adjacent to that region (its nonzero-hint border).  Cells outside this set —
in particular every mine cell, and every already-`Flagged` or already-
`Uncovered` cell, which also block the cascade from expanding through them —
keep their state, and the resulting board is the same for every processing
order of the work-set. -/
theorem C1_cascade_region_amended (pick : List (Int × Int) → Nat)
    (b : Minesweeper) (i j : Int)
    (hsg : Shaped b.height b.width b.state_grid)
    (hin : inRange b.height b.width (i, j))
    (hcov : pyGet2 b.state_grid i j = some CellState.covered)
    (hz : pyGet2 b.grid i j = some 0) :
    (uncover pick b i j).2 = none ∧
    (uncover pick b i j).1.grid = b.grid ∧
    (uncover pick b i j).1.height = b.height ∧
    (uncover pick b i j).1.width = b.width ∧
    (uncover pick b i j).1.mines = b.mines ∧
    (∀ d : Int × Int, inRange b.height b.width d →
      (UncSet b.grid b.height b.width b.state_grid i j d →
        pyGet2 (uncover pick b i j).1.state_grid d.1 d.2
          = some CellState.uncovered) ∧
      (¬ UncSet b.grid b.height b.width b.state_grid i j d →
        pyGet2 (uncover pick b i j).1.state_grid d.1 d.2
          = pyGet2 b.state_grid d.1 d.2)) ∧
    (∀ d : Int × Int, inRange b.height b.width d → mineAt b.grid d →
      pyGet2 (uncover pick b i j).1.state_grid d.1 d.2
        = pyGet2 b.state_grid d.1 d.2) ∧
    (∀ pick2 : List (Int × Int) → Nat, uncover pick2 b i j = uncover pick b i j) := by
  have heq := @uncover_eq_zero pick b i j hcov hz
  have hnn : ∀ e ∈ neighbors b.height b.width i j, 0 ≤ e.1 ∧ 0 ≤ e.2 :=
    fun e he => nonneg_of_inRange (neighbors_inRange he)
  have hbridge := @cascReach_iff_uncSet b.grid b.height b.width b.state_grid i j
    hin hcov hz
  have hself : pyGet2 (pySet2 b.state_grid i j CellState.uncovered) i j
      = some CellState.uncovered := by
    apply pyGet2_pySet2_self
    rw [hcov]
    rfl
  have hpoint : ∀ d : Int × Int, inRange b.height b.width d →
      (UncSet b.grid b.height b.width b.state_grid i j d →
        pyGet2 (uncover pick b i j).1.state_grid d.1 d.2
          = some CellState.uncovered) ∧
      (¬ UncSet b.grid b.height b.width b.state_grid i j d →
        pyGet2 (uncover pick b i j).1.state_grid d.1 d.2
          = pyGet2 b.state_grid d.1 d.2) := by
    intro d hd
    have hnnd := nonneg_of_inRange hd
    have hspec := runCascade_spec b.grid b.height b.width pick
      (pySet2 b.state_grid i j CellState.uncovered)
      (neighbors b.height b.width i j) hnn d hnnd.1 hnnd.2
    constructor
    · intro hU
      rcases (hbridge d).mpr hU with hre | rfl
      · rw [heq]
        exact hspec.1 hre
      · have hnre : ¬ CascReach b.grid b.height b.width
            (pySet2 b.state_grid i j CellState.uncovered)
            (neighbors b.height b.width i j) (i, j) := by
          intro hre
          have hcv := cascReach_coveredAt hre
          have hcv2 : pyGet2 (pySet2 b.state_grid i j CellState.uncovered) i j
              = some CellState.covered := hcv
          rw [hself] at hcv2
          cases hcv2
        rw [heq]
        have hres := hspec.2 hnre
        rw [hres]
        exact hself
    · intro hnU
      have hdij : d ≠ (i, j) := fun hh => hnU (Or.inl hh)
      have hnre : ¬ CascReach b.grid b.height b.width
          (pySet2 b.state_grid i j CellState.uncovered)
          (neighbors b.height b.width i j) d :=
        fun hre => hnU ((hbridge d).mp (Or.inl hre))
      rw [heq]
      have h1 := hspec.2 hnre
      rw [h1]
      exact pyGet2_pySet2_ne_cell (nonneg_of_inRange hin) hnnd.1 hnnd.2 hdij
        b.state_grid CellState.uncovered
  refine ⟨by rw [heq], by rw [heq], by rw [heq], by rw [heq], by rw [heq],
    hpoint, ?_, ?_⟩
  · intro d hd hmd
    apply (hpoint d hd).2
    rintro (rfl | ⟨e, _, _, _, hnm⟩)
    · unfold mineAt at hmd
      have : some (0 : Int) = some MINE := by
        rw [← hz]
        exact hmd.symm ▸ hmd
      rw [hz] at hmd
      injection hmd with hmd2
      unfold MINE at hmd2
      omega
    · exact hnm hmd
  · intro pick2
    rw [@uncover_eq_zero pick2 b i j hcov hz, heq]
    have hshape1 : Shaped b.height b.width (pySet2 b.state_grid i j CellState.uncovered) :=
      shaped_pySet2 hsg i j CellState.uncovered
    have hX : runCascade b.grid b.height b.width pick2
        (pySet2 b.state_grid i j CellState.uncovered)
        (neighbors b.height b.width i j)
        = runCascade b.grid b.height b.width pick
        (pySet2 b.state_grid i j CellState.uncovered)
        (neighbors b.height b.width i j) := by
      apply shaped_ext (runCascade_shaped _ _ _ pick2 _ _ _ _ hshape1)
        (runCascade_shaped _ _ _ pick _ _ _ _ hshape1)
      intro d hd
      have hnnd := nonneg_of_inRange hd
      have h1 := runCascade_spec b.grid b.height b.width pick2
        (pySet2 b.state_grid i j CellState.uncovered)
        (neighbors b.height b.width i j) hnn d hnnd.1 hnnd.2
      have h2 := runCascade_spec b.grid b.height b.width pick
        (pySet2 b.state_grid i j CellState.uncovered)
        (neighbors b.height b.width i j) hnn d hnnd.1 hnnd.2
      by_cases hre : CascReach b.grid b.height b.width
          (pySet2 b.state_grid i j CellState.uncovered)
          (neighbors b.height b.width i j) d
      · rw [h1.1 hre, h2.1 hre]
      · rw [h1.2 hre, h2.2 hre]
    rw [hX]

/-- A 1×3 zero-hint mine-free board with the middle cell `Flagged`: the
flagged cell blocks the cascade, so the claim as stated (the whole maximal
zero-hint region becomes `Uncovered`) fails at it. -/
def cexBoardC1 : Minesweeper :=
  { height := 1, width := 3, mines := 0, grid := [[0, 0, 0]],
    state_grid := [[CellState.covered, CellState.flagged, CellState.covered]] }

/-- Claim C1 counterexample: on `cexBoardC1`, `(0, 0)` is `Covered` with hint
0 and no mine, and `(0, 2)` lies in the maximal 8-connected region of
zero-hint non-mine cells containing `(0, 0)` (it is zero-hint, non-mine, and
adjacent to the zero-hint non-mine cell `(0, 1)`, itself adjacent to
`(0, 0)`) — yet after `uncover(0, 0)` the cell `(0, 2)` is still `Covered`,
because the `Flagged` cell `(0, 1)` blocks the cascade. -/
theorem C1_cascade_counterexample :
    pyGet2 cexBoardC1.state_grid 0 0 = some CellState.covered ∧
    pyGet2 cexBoardC1.grid 0 0 = some 0 ∧
    pyGet2 cexBoardC1.grid 0 1 = some 0 ∧
    pyGet2 cexBoardC1.grid 0 2 = some 0 ∧
    pyGet2 cexBoardC1.grid 0 2 ≠ some MINE ∧
    (0, 1) ∈ neighbors cexBoardC1.height cexBoardC1.width 0 0 ∧
    (0, 2) ∈ neighbors cexBoardC1.height cexBoardC1.width 0 1 ∧
    pyGet2 ((uncover (fun _ => 0) cexBoardC1 0 0).1.state_grid) 0 2
      = some CellState.covered := by
  decide

/-- A 1×3 zero-hint mine-free board, everything `Covered`. -/
def witBoardC1 : Minesweeper :=
  { height := 1, width := 3, mines := 0, grid := [[0, 0, 0]],
    state_grid := [[CellState.covered, CellState.covered, CellState.covered]] }

/-- Witness for the amended claim C1 at a concrete board. -/
theorem C1_cascade_witness :
    (uncover (fun _ => 0) witBoardC1 0 0).2 = none :=
  (C1_cascade_region_amended (fun _ => 0) witBoardC1 0 0 (by decide) (by decide)
    (by decide) (by decide)).1

/-- Claim C2: after construction, every in-range cell that does not hold a
mine stores as its hint exactly the number of mine-holding cells among its
up-to-8 proper neighbors (the center excluded, off-board positions excluded
by clipping), and that count is at most 8 — the self-inclusion of the
neighbor enumeration never inflates the count of a non-mine cell. -/
theorem C2_hint_correct (choose : List (Int × Int) → Nat) (h w m : Int)
    (b : Minesweeper) (hb : mkMinesweeper choose h w m = some b)
    (c : Int × Int) (hc : inRange h w c)
    (hnm : pyGet2 b.grid c.1 c.2 ≠ some MINE) :
    pyGet2 b.grid c.1 c.2
      = some (((properNeighborMines h w b.grid c).length : Int)) ∧
    (properNeighborMines h w b.grid c).length ≤ 8 := by
  have hval := mkMinesweeper_hints hb c hc hnm
  have hrestrict := filter_restrict_ne
    (fun d => decide (pyGet2 b.grid d.1 d.2 = some MINE)) c
    (by exact decide_eq_false hnm) (neighbors h w c.1 c.2)
  constructor
  · rw [hval]
    unfold mineCountAt properNeighborMines
    rw [hrestrict]
  · have hmemc : c ∈ neighbors h w c.1 c.2 := self_mem_neighbors_cell hc
    have hnd := neighbors_nodup h w c.1 c.2
    have hlen := filter_ne_length hnd hmemc
    have h9 := neighbors_length_le h w c.1 c.2
    unfold properNeighborMines
    have hle := List.length_filter_le
      (fun d => decide (pyGet2 b.grid d.1 d.2 = some MINE))
      ((neighbors h w c.1 c.2).filter (fun d => decide (d ≠ c)))
    omega

/-- Witness board for claim C2: the board built from a 2×2, one-mine
construction whose choice function always picks the first candidate. -/
def witBoardC2 : Minesweeper :=
  { height := 2, width := 2, mines := 1, grid := [[-1, 1], [1, 1]],
    state_grid := [[CellState.covered, CellState.covered],
                   [CellState.covered, CellState.covered]] }

/-- Witness for claim C2 at a concrete constructed board. -/
theorem C2_hint_correct_witness :
    pyGet2 witBoardC2.grid 0 1
      = some (((properNeighborMines 2 2 witBoardC2.grid (0, 1)).length : Int)) ∧
    (properNeighborMines 2 2 witBoardC2.grid (0, 1)).length ≤ 8 :=
  C2_hint_correct (fun _ => 0) 2 2 1 witBoardC2 (by decide) (0, 1) (by decide)
    (by decide)

/-- Claim C3: for an in-range cell, `uncover` and `flag` raise `Illegal`
exactly when the cell is not `Covered`, `unflag` raises `Illegal` exactly
when the cell is not `Flagged`; `Illegal` is the only possible failure, and
a failing call returns the board unchanged. -/
theorem C3_illegal_move (pick : List (Int × Int) → Nat) (b : Minesweeper)
    (i j : Int) (hsg : Shaped b.height b.width b.state_grid)
    (hg : Shaped b.height b.width b.grid)
    (hin : inRange b.height b.width (i, j)) :
    ((uncover pick b i j).2 = some PyErr.illegal ↔
      pyGet2 b.state_grid i j ≠ some CellState.covered) ∧
    ((flag b i j).2 = some PyErr.illegal ↔
      pyGet2 b.state_grid i j ≠ some CellState.covered) ∧
    ((unflag b i j).2 = some PyErr.illegal ↔
      pyGet2 b.state_grid i j ≠ some CellState.flagged) ∧
    ((uncover pick b i j).2 ≠ none →
      (uncover pick b i j).2 = some PyErr.illegal ∧ (uncover pick b i j).1 = b) ∧
    ((flag b i j).2 ≠ none →
      (flag b i j).2 = some PyErr.illegal ∧ (flag b i j).1 = b) ∧
    ((unflag b i j).2 ≠ none →
      (unflag b i j).2 = some PyErr.illegal ∧ (unflag b i j).1 = b) := by
  obtain ⟨s, hs0⟩ := shaped_pyGet2_isSome hsg hin
  have hs : pyGet2 b.state_grid i j = some s := hs0
  obtain ⟨v, hv0⟩ := shaped_pyGet2_isSome hg hin
  have hv : pyGet2 b.grid i j = some v := hv0
  cases s with
  | covered =>
    have hu2 : (uncover pick b i j).2 = none := by
      by_cases hvz : v = 0
      · subst hvz
        rw [uncover_eq_zero hs hv]
      · rw [uncover_eq_nonzero hs hv hvz]
    have hfl : flag b i j
        = ({ b with state_grid := pySet2 b.state_grid i j CellState.flagged }, none) := by
      rw [flag_eq_of_some hs, if_neg (not_not_intro rfl)]
    have hufl : unflag b i j = (b, some PyErr.illegal) := by
      rw [unflag_eq_of_some hs, if_pos (by decide)]
    refine ⟨?_, ?_, ?_, ?_, ?_, ?_⟩
    · constructor
      · intro hh
        rw [hu2] at hh
        cases hh
      · intro hh
        exact absurd hs hh
    · constructor
      · intro hh
        rw [hfl] at hh
        cases hh
      · intro hh
        exact absurd hs hh
    · constructor
      · intro _
        rw [hs]
        simp
      · intro _
        rw [hufl]
    · intro hh
      rw [hu2] at hh
      exact absurd rfl hh
    · intro hh
      rw [hfl] at hh
      exact absurd rfl hh
    · intro _
      rw [hufl]
      exact ⟨rfl, rfl⟩
  | flagged =>
    have hun1 : uncover pick b i j = (b, some PyErr.illegal) :=
      uncover_eq_illegal hs (by decide)
    have hfl : flag b i j = (b, some PyErr.illegal) := by
      rw [flag_eq_of_some hs, if_pos (by decide)]
    have hufl : unflag b i j
        = ({ b with state_grid := pySet2 b.state_grid i j CellState.covered }, none) := by
      rw [unflag_eq_of_some hs, if_neg (not_not_intro rfl)]
    refine ⟨?_, ?_, ?_, ?_, ?_, ?_⟩
    · constructor
      · intro _
        rw [hs]
        simp
      · intro _
        rw [hun1]
    · constructor
      · intro _
        rw [hs]
        simp
      · intro _
        rw [hfl]
    · constructor
      · intro hh
        rw [hufl] at hh
        cases hh
      · intro hh
        exact absurd hs hh
    · intro _
      rw [hun1]
      exact ⟨rfl, rfl⟩
    · intro _
      rw [hfl]
      exact ⟨rfl, rfl⟩
    · intro hh
      rw [hufl] at hh
      exact absurd rfl hh
  | uncovered =>
    have hun1 : uncover pick b i j = (b, some PyErr.illegal) :=
      uncover_eq_illegal hs (by decide)
    have hfl : flag b i j = (b, some PyErr.illegal) := by
      rw [flag_eq_of_some hs, if_pos (by decide)]
    have hufl : unflag b i j = (b, some PyErr.illegal) := by
      rw [unflag_eq_of_some hs, if_pos (by decide)]
    refine ⟨?_, ?_, ?_, ?_, ?_, ?_⟩
    · constructor
      · intro _
        rw [hs]
        simp
      · intro _
        rw [hun1]
    · constructor
      · intro _
        rw [hs]
        simp
      · intro _
        rw [hfl]
    · constructor
      · intro _
        rw [hs]
        simp
      · intro _
        rw [hufl]
    · intro _
      rw [hun1]
      exact ⟨rfl, rfl⟩
    · intro _
      rw [hfl]
      exact ⟨rfl, rfl⟩
    · intro _
      rw [hufl]
      exact ⟨rfl, rfl⟩

/-- Witness board for claim C3. -/
def witBoardC3 : Minesweeper :=
  { height := 2, width := 2, mines := 1, grid := [[MINE, 1], [1, 1]],
    state_grid := [[CellState.covered, CellState.flagged],
                   [CellState.uncovered, CellState.covered]] }

/-- Witness for claim C3: flagging an already-flagged cell fails with
`Illegal`. -/
theorem C3_illegal_move_witness :
    (flag witBoardC3 0 1).2 = some PyErr.illegal :=
  (C3_illegal_move (fun _ => 0) witBoardC3 0 1 (by decide) (by decide)
    (by decide)).2.1.mpr (by decide)

/-- Claim C5: for positive dimensions and a mine count within `[0, h*w]`,
construction succeeds for every outcome of the random choices, and the
resulting grid holds a mine in exactly `mines` distinct fields. -/
theorem C5_exact_mines (choose : List (Int × Int) → Nat) (h w m : Int)
    (hh : 0 < h) (hw : 0 < w) (hm0 : 0 ≤ m) (hle : m ≤ h * w) :
    ∃ b, mkMinesweeper choose h w m = some b ∧
      mineCount h w b.grid = m.toNat ∧ ((m.toNat : Int) = m) := by
  have hcast : ((h.toNat * w.toNat : Nat) : Int) = h * w := by
    rw [Nat.cast_mul, Int.toNat_of_nonneg (le_of_lt hh), Int.toNat_of_nonneg (le_of_lt hw)]
  have hns : mkMinesweeper choose h w m ≠ none := by
    rw [Ne, mkMinesweeper_none_iff]
    omega
  obtain ⟨b, hb⟩ := Option.ne_none_iff_exists'.mp hns
  exact ⟨b, hb, mkMinesweeper_mineCount hb, Int.toNat_of_nonneg hm0⟩

/-- Witness for claim C5 at a concrete construction. -/
theorem C5_exact_mines_witness :
    ∃ b, mkMinesweeper (fun _ => 0) 2 2 3 = some b ∧
      mineCount 2 2 b.grid = (3 : Int).toNat ∧ (((3 : Int).toNat : Int) = 3) :=
  C5_exact_mines (fun _ => 0) 2 2 3 (by decide) (by decide) (by decide) (by decide)

/-- Claim C4: under any single `uncover`/`flag`/`unflag` call (successful or
failing), each cell either keeps its state or makes one of the transitions
Covered→Flagged, Flagged→Covered, Covered→Uncovered; consequently an
`Uncovered` cell never changes again over any sequence of calls, and once
`game_lost()` is true it stays true after every subsequent operation. -/
theorem C4_state_transitions :
    (∀ (b : Minesweeper) (op : Op) (c : Int × Int),
      pyGet2 (applyOp b op).state_grid c.1 c.2 = pyGet2 b.state_grid c.1 c.2 ∨
      (pyGet2 b.state_grid c.1 c.2 = some CellState.covered ∧
        pyGet2 (applyOp b op).state_grid c.1 c.2 = some CellState.flagged) ∨
      (pyGet2 b.state_grid c.1 c.2 = some CellState.flagged ∧
        pyGet2 (applyOp b op).state_grid c.1 c.2 = some CellState.covered) ∨
      (pyGet2 b.state_grid c.1 c.2 = some CellState.covered ∧
        pyGet2 (applyOp b op).state_grid c.1 c.2 = some CellState.uncovered)) ∧
    (∀ (b : Minesweeper) (ops : List Op) (c : Int × Int),
      pyGet2 b.state_grid c.1 c.2 = some CellState.uncovered →
      pyGet2 (ops.foldl applyOp b).state_grid c.1 c.2 = some CellState.uncovered) ∧
    (∀ (b : Minesweeper) (ops : List Op),
      game_lost b = true → game_lost (ops.foldl applyOp b) = true) :=
  ⟨applyOp_transition, foldl_applyOp_uncovered, game_lost_foldl⟩

/-- Witness board for claim C4: the mine at `(0, 0)` is already uncovered. -/
def witBoardC4 : Minesweeper :=
  { height := 1, width := 2, mines := 1, grid := [[MINE, 1]],
    state_grid := [[CellState.uncovered, CellState.covered]] }

/-- Witness for claim C4: on a lost board, a further flag keeps the game
lost and the uncovered mine uncovered. -/
theorem C4_state_transitions_witness :
    game_lost (List.foldl applyOp witBoardC4 [Op.flagOp 0 1]) = true ∧
    pyGet2 (List.foldl applyOp witBoardC4 [Op.flagOp 0 1]).state_grid 0 0
      = some CellState.uncovered :=
  ⟨C4_state_transitions.2.2 witBoardC4 [Op.flagOp 0 1] (by decide),
   C4_state_transitions.2.1 witBoardC4 [Op.flagOp 0 1] (0, 0) (by decide)⟩

/-- Claim C6: the query `game_won()` is true exactly when every in-range mine cell is
`Flagged` and every in-range non-mine cell is `Uncovered`; in particular it
is false when all mines are flagged but some safe cell is not uncovered, and
false when all safe cells are uncovered but some mine is not flagged. -/
theorem C6_game_won_iff (b : Minesweeper) :
    (game_won b = true ↔
      ∀ c : Int × Int, inRange b.height b.width c →
        (pyGet2 b.grid c.1 c.2 = some MINE →
          pyGet2 b.state_grid c.1 c.2 = some CellState.flagged) ∧
        (pyGet2 b.grid c.1 c.2 ≠ some MINE →
          pyGet2 b.state_grid c.1 c.2 = some CellState.uncovered)) ∧
    ((∃ c : Int × Int, inRange b.height b.width c ∧
        pyGet2 b.grid c.1 c.2 ≠ some MINE ∧
        pyGet2 b.state_grid c.1 c.2 ≠ some CellState.uncovered) →
      game_won b = false) ∧
    ((∃ c : Int × Int, inRange b.height b.width c ∧
        pyGet2 b.grid c.1 c.2 = some MINE ∧
        pyGet2 b.state_grid c.1 c.2 ≠ some CellState.flagged) →
      game_won b = false) := by
  have hmain : game_won b = true ↔
      ∀ c : Int × Int, inRange b.height b.width c →
        (pyGet2 b.grid c.1 c.2 = some MINE →
          pyGet2 b.state_grid c.1 c.2 = some CellState.flagged) ∧
        (pyGet2 b.grid c.1 c.2 ≠ some MINE →
          pyGet2 b.state_grid c.1 c.2 = some CellState.uncovered) := by
    unfold game_won
    rw [List.all_eq_true]
    constructor
    · intro hall c hc
      have := hall c (mem_fieldsList.mpr hc)
      rw [decide_eq_true_eq] at this
      exact this
    · intro hall c hc
      rw [decide_eq_true_eq]
      exact hall c (mem_fieldsList.mp hc)
  refine ⟨hmain, ?_, ?_⟩
  · rintro ⟨c, hc, hnm, hnu⟩
    by_contra hgw
    rw [Bool.not_eq_false] at hgw
    exact hnu ((hmain.mp hgw c hc).2 hnm)
  · rintro ⟨c, hc, hm2, hnf⟩
    by_contra hgw
    rw [Bool.not_eq_false] at hgw
    exact hnf ((hmain.mp hgw c hc).1 hm2)

/-- Witness board for claim C6: the mine is flagged and the safe cell
uncovered. -/
def witBoardC6 : Minesweeper :=
  { height := 1, width := 2, mines := 1, grid := [[MINE, 1]],
    state_grid := [[CellState.flagged, CellState.uncovered]] }

/-- Witness for claim C6: the winning condition holds on `witBoardC6`. -/
theorem C6_game_won_witness : game_won witBoardC6 = true :=
  (C6_game_won_iff witBoardC6).1.mpr (by
    rintro ⟨c1, c2⟩ hc
    obtain ⟨h1, h2, h3, h4⟩ := hc
    have hc1 : c1 = 0 := by
      simp only [witBoardC6] at h1 h2
      omega
    have hc2 : c2 = 0 ∨ c2 = 1 := by
      simp only [witBoardC6] at h3 h4
      omega
    subst hc1
    rcases hc2 with rfl | rfl
    · exact ⟨fun _ => by decide, fun hh => absurd (by decide) hh⟩
    · exact ⟨fun hh => absurd hh (by decide), fun _ => by decide⟩)

/-- Claim C7 (amended): construction is rejected exactly when the requested
mine count exceeds the number of cells (with non-positive dimensions
contributing zero cells); in particular a negative mine count is accepted
(it places no mines), so construction does not fail on every input outside
the claimed precondition range. -/
theorem C7_construction_amended (choose : List (Int × Int) → Nat) (h w m : Int) :
    (mkMinesweeper choose h w m = none ↔ h.toNat * w.toNat < m.toNat) ∧
    (m < 0 → ∃ b, mkMinesweeper choose h w m = some b) := by
  constructor
  · exact mkMinesweeper_none_iff choose h w m
  · intro hm
    have hns : mkMinesweeper choose h w m ≠ none := by
      rw [Ne, mkMinesweeper_none_iff]
      omega
    exact Option.ne_none_iff_exists'.mp hns

/-- Claim C7 counterexample: `mines = -1` lies outside `[0, height*width]`,
yet construction of a 1×1 board with `mines = -1` succeeds (the claim says
it must fail). -/
theorem C7_construction_counterexample :
    ((-1 : Int) < 0) ∧ (mkMinesweeper (fun _ => 0) 1 1 (-1)).isSome = true := by
  decide

/-- Witness for the amended claim C7: too many mines is rejected, negative
mines is accepted. -/
theorem C7_construction_witness :
    mkMinesweeper (fun _ => 0) 2 2 5 = none ∧
    ∃ b, mkMinesweeper (fun _ => 0) 1 1 (-1) = some b :=
  ⟨(C7_construction_amended (fun _ => 0) 2 2 5).1.mpr (by decide),
   (C7_construction_amended (fun _ => 0) 1 1 (-1)).2 (by decide)⟩

/-- Claim C8: the cascade worklist loop terminates for every grid, state and
worklist: `|todo| + 9 * (number of Covered cells)` iterations of fuel always
suffice, so `runCascade` (the cascade as invoked by `uncover`) is the loop's
actual result. -/
theorem C8_cascade_terminates (g : List (List Int)) (h w : Int)
    (pick : List (Int × Int) → Nat) (sg : List (List CellState))
    (todo : List (Int × Int)) :
    (cascadeFuel g h w pick (todo.length + 9 * coveredCount sg) sg todo).isSome
      = true ∧
    cascadeFuel g h w pick (todo.length + 9 * coveredCount sg) sg todo
      = some (runCascade g h w pick sg todo) :=
  ⟨cascadeFuel_isSome g h w pick _ sg todo (Nat.le_refl _),
   runCascade_eq g h w pick sg todo⟩

/-- Claim C9: flagging a `Covered` cell and then unflagging it both succeed
and return the board to exactly its original state. -/
theorem C9_flag_unflag_roundtrip (b : Minesweeper) (i j : Int)
    (hcov : pyGet2 b.state_grid i j = some CellState.covered) :
    (flag b i j).2 = none ∧ (unflag (flag b i j).1 i j).2 = none ∧
      (unflag (flag b i j).1 i j).1 = b := by
  have hfl : flag b i j
      = ({ b with state_grid := pySet2 b.state_grid i j CellState.flagged }, none) := by
    rw [flag_eq_of_some hcov, if_neg (not_not_intro rfl)]
  have hread : pyGet2 (pySet2 b.state_grid i j CellState.flagged) i j
      = some CellState.flagged := by
    apply pyGet2_pySet2_self
    rw [hcov]
    rfl
  have hrestored : pySet2 (pySet2 b.state_grid i j CellState.flagged) i j CellState.covered = b.state_grid :=
    pySet2_restore hcov CellState.flagged
  have hufl : unflag ({ b with state_grid := pySet2 b.state_grid i j CellState.flagged }) i j = (b, none) := by
    rw [unflag_eq_of_some (show pyGet2 ({ b with state_grid := pySet2 b.state_grid i j CellState.flagged } : Minesweeper).state_grid i j = some CellState.flagged from hread), if_neg (not_not_intro rfl)]
    show ({ b with state_grid := pySet2 (pySet2 b.state_grid i j CellState.flagged) i j CellState.covered }, (none : Option PyErr)) = (b, none)
    rw [hrestored]
  refine ⟨by rw [hfl], ?_, ?_⟩
  · simp only [hfl]
    rw [hufl]
  · simp only [hfl]
    rw [hufl]

/-- Witness board for claim C9. -/
def witBoardC9 : Minesweeper :=
  { height := 1, width := 1, mines := 0, grid := [[0]],
    state_grid := [[CellState.covered]] }

/-- Witness for claim C9 at a concrete board. -/
theorem C9_flag_unflag_witness :
    (flag witBoardC9 0 0).2 = none ∧ (unflag (flag witBoardC9 0 0).1 0 0).2 = none ∧
      (unflag (flag witBoardC9 0 0).1 0 0).1 = witBoardC9 :=
  C9_flag_unflag_roundtrip witBoardC9 0 0 (by decide)

/-- Claim C10: negative coordinates in `[-height, -1] × [-width, -1]` are
not rejected: `flag`/`unflag` behave exactly as at the aliased cell
`(height + i, width + j)` (Python negative indexing), reading and mutating
that cell subject to its visibility precondition, and never signal an
out-of-bounds failure. -/
theorem C10_negative_indexing (b : Minesweeper) (i j : Int)
    (hsg : Shaped b.height b.width b.state_grid)
    (hi1 : -b.height ≤ i) (hi2 : i < 0) (hj1 : -b.width ≤ j) (hj2 : j < 0) :
    pyGet2 b.state_grid i j = pyGet2 b.state_grid (b.height + i) (b.width + j) ∧
    flag b i j = flag b (b.height + i) (b.width + j) ∧
    unflag b i j = unflag b (b.height + i) (b.width + j) ∧
    (flag b i j).2 ≠ some PyErr.indexError ∧
    (unflag b i j).2 ≠ some PyErr.indexError := by
  have hget := pyGet2_alias hsg hi1 hi2 hj1 hj2
  have hin : inRange b.height b.width (b.height + i, b.width + j) :=
    ⟨by omega, by omega, by omega, by omega⟩
  obtain ⟨s, hs0⟩ := shaped_pyGet2_isSome hsg hin
  have hs : pyGet2 b.state_grid i j = some s := by
    rw [hget]
    exact hs0
  refine ⟨hget, flag_alias hsg hi1 hi2 hj1 hj2, unflag_alias hsg hi1 hi2 hj1 hj2,
    ?_, ?_⟩
  · rw [flag_eq_of_some hs]
    by_cases hsc : s ≠ CellState.covered
    · rw [if_pos hsc]
      simp
    · rw [if_neg hsc]
      simp
  · rw [unflag_eq_of_some hs]
    by_cases hsc : s ≠ CellState.flagged
    · rw [if_pos hsc]
      simp
    · rw [if_neg hsc]
      simp

/-- Witness board for claim C10. -/
def witBoardC10 : Minesweeper :=
  { height := 1, width := 2, mines := 0, grid := [[0, 0]],
    state_grid := [[CellState.covered, CellState.covered]] }

/-- Witness for claim C10: `flag(-1, -1)` is the same call as flagging the
bottom-right cell. -/
theorem C10_negative_indexing_witness :
    flag witBoardC10 (-1) (-1)
      = flag witBoardC10 (witBoardC10.height + -1) (witBoardC10.width + -1) :=
  (C10_negative_indexing witBoardC10 (-1) (-1) (by decide) (by decide) (by decide)
    (by decide) (by decide)).2.1
